import Mathlib

/-!
Verification of the tstaking reward-aggregation core against its source.

The development shallowly embeds the two reward endpoints
(`src/app/api/theta/rewards/route.ts`, `src/app/api/theta/earned/route.ts`)
and the client-side incremental tracker refresh
(`src/app/api/simpleswap/currencies/route.ts`).

Modelling conventions, fixed once here:

* Strings from the HTTP layer are `List Char`.
* Unix timestamps and the `since` bound are integers (seconds); the
  request clock `nowMs` is an integer (milliseconds).  The JS code parses
  timestamps with `Number(...)`; a record timestamp is modelled as
  `Option Int` where `none` stands for a missing, empty or non-finite
  parse and `some t` for a truthy string parsing to the finite value `t`
  (so `some 0` is the string "0").
* Token display amounts: the source computes
  `Number(whole) + Number(frac6) / 1e6`, always an integer multiple of
  10^(-6).  The model carries that value scaled by 10^6 ("micro-units")
  as an `Int`, which represents it exactly; sums, sign tests and the
  zero-to-null normalisation commute with this scaling.
-/

namespace TStaking

/-- ASCII whitespace test used for trimming (models the whitespace class
of JS `trim` on the inputs of interest). -/
def isWsChar (c : Char) : Bool :=
  c = ' ' || c = '\t' || c = '\n' || c = '\r'

/-- ASCII lower-casing, modelling `String.prototype.toLowerCase` on the
character range the endpoints handle. -/
def jsToLower (c : Char) : Char :=
  match c with
  | 'A' => 'a' | 'B' => 'b' | 'C' => 'c' | 'D' => 'd' | 'E' => 'e'
  | 'F' => 'f' | 'G' => 'g' | 'H' => 'h' | 'I' => 'i' | 'J' => 'j'
  | 'K' => 'k' | 'L' => 'l' | 'M' => 'm' | 'N' => 'n' | 'O' => 'o'
  | 'P' => 'p' | 'Q' => 'q' | 'R' => 'r' | 'S' => 's' | 'T' => 't'
  | 'U' => 'u' | 'V' => 'v' | 'W' => 'w' | 'X' => 'x' | 'Y' => 'y'
  | 'Z' => 'z'
  | _ => c

/-- Splitting on commas, as `String.prototype.split(",")`: `cur` is the
reversed current segment. -/
def splitCommaAux (cur : List Char) : List Char → List (List Char)
  | [] => [cur.reverse]
  | c :: rest =>
    if c = ',' then cur.reverse :: splitCommaAux [] rest
    else splitCommaAux (c :: cur) rest

def splitComma (s : List Char) : List (List Char) :=
  splitCommaAux [] s

/-- Models `String.prototype.trim`. -/
def trimChars (s : List Char) : List Char :=
  ((s.dropWhile isWsChar).reverse.dropWhile isWsChar).reverse

/-- Models `toAddressList` from both route files: split on commas, trim, drop
empties (`filter(Boolean)`), lower-case. -/
def toAddressList (raw : List Char) : List (List Char) :=
  (((splitComma raw).map trimChars).filter (fun e => !e.isEmpty)).map
    (List.map jsToLower)

def isLowerHexDigit (c : Char) : Bool :=
  decide ((48 ≤ c.toNat ∧ c.toNat ≤ 57) ∨ (97 ≤ c.toNat ∧ c.toNat ≤ 102))

/-- Models `isHexAddress` from both route files: the regex `^0x[a-f0-9]{40}$`. -/
def isHexAddress (s : List Char) : Bool :=
  match s with
  | '0' :: 'x' :: rest => rest.length = 40 && rest.all isLowerHexDigit
  | _ => false

/-- Models `Math.max` on integers. -/
def jsMax (a b : Int) : Int := if a < b then b else a

/-! ### BigInt string parsing and `weiToNumber` -/

def isDecDigit (c : Char) : Bool :=
  decide (48 ≤ c.toNat ∧ c.toNat ≤ 57)

def decDigitVal (c : Char) : Nat := c.toNat - 48

/-- Hexadecimal digit value, both cases (codepoints 48-57, 97-102 and
65-70). -/
def hexDigitVal (c : Char) : Option Nat :=
  if 48 ≤ c.toNat ∧ c.toNat ≤ 57 then some (c.toNat - 48)
  else if 97 ≤ c.toNat ∧ c.toNat ≤ 102 then some (c.toNat - 87)
  else if 65 ≤ c.toNat ∧ c.toNat ≤ 70 then some (c.toNat - 55)
  else none

def radixStep (base : Nat) (digit : Char → Option Nat)
    (acc : Option Nat) (c : Char) : Option Nat :=
  match acc, digit c with
  | some n, some d => if d < base then some (n * base + d) else none
  | _, _ => none

/-- Digits of a base-`base` numeral, most significant first. -/
def parseRadix (base : Nat) (digit : Char → Option Nat) (s : List Char) :
    Option Nat :=
  if s.isEmpty then none
  else s.foldl (radixStep base digit) (some 0)

def binDigitVal (c : Char) : Option Nat :=
  if c = '0' then some 0 else if c = '1' then some 1 else none

def octDigitVal (c : Char) : Option Nat :=
  if 48 ≤ c.toNat ∧ c.toNat ≤ 55 then some (c.toNat - 48) else none

def decDigitValOpt (c : Char) : Option Nat :=
  if isDecDigit c then some (decDigitVal c) else none

/-- The ECMAScript `StringToBigInt` conversion applied by `BigInt(wei)`:
whitespace is trimmed, the empty string is 0, a decimal numeral may carry
a sign, and `0x`/`0o`/`0b` prefixed numerals (no sign allowed) use the
corresponding radix.  `none` models the `SyntaxError` caught by the
`try`/`catch`. -/
def parseBigInt (s : List Char) : Option Int :=
  match trimChars s with
  | [] => some 0
  | '+' :: rest => (parseRadix 10 decDigitValOpt rest).map Int.ofNat
  | '-' :: rest => (parseRadix 10 decDigitValOpt rest).map (fun n => -(Int.ofNat n))
  | '0' :: 'x' :: rest => (parseRadix 16 hexDigitVal rest).map Int.ofNat
  | '0' :: 'X' :: rest => (parseRadix 16 hexDigitVal rest).map Int.ofNat
  | '0' :: 'o' :: rest => (parseRadix 8 octDigitVal rest).map Int.ofNat
  | '0' :: 'O' :: rest => (parseRadix 8 octDigitVal rest).map Int.ofNat
  | '0' :: 'b' :: rest => (parseRadix 2 binDigitVal rest).map Int.ofNat
  | '0' :: 'B' :: rest => (parseRadix 2 binDigitVal rest).map Int.ofNat
  | _ => (parseRadix 10 decDigitValOpt (trimChars s)).map Int.ofNat

/-- Models `weiToNumber` from both route files.  The source returns the display
number `Number(whole) + Number(frac6) / 1e6`; the model returns that
value scaled by 10^6 (an exact integer representation), i.e.
`whole * 1000000 + frac6`.  BigInt `/` and `%` truncate toward zero,
which is `Int.tdiv` / `Int.tmod`. -/
def weiToNumber (wei : List Char) (decimals : Nat) : Option Int :=
  match parseBigInt wei with
  | none => none
  | some bi =>
    let denom : Int := 10 ^ decimals
    let whole := bi.tdiv denom
    let frac := bi.tmod denom
    let frac6 := (frac * 1000000).tdiv denom
    some (whole * 1000000 + frac6)

/-! ### Explorer transaction feed model -/

/-- One output entry of a transaction record (`data.outputs[i]`): an
optional destination address string and an optional `coins.tfuelwei`
base-units string (`none` = field missing). -/
structure TxOutput where
  address : Option (List Char)
  tfuelwei : Option (List Char)
deriving DecidableEq

/-- One entry of the explorer's account-transaction feed.  `timestamp`
models `tx.timestamp ? Number(tx.timestamp) : null` evaluated lazily:
`none` stands for a missing/empty/non-finite timestamp string and
`some t` for a truthy string parsing to the finite value `t`. -/
structure Tx where
  timestamp : Option Int
  outputs : List TxOutput
deriving DecidableEq

/-- One page of the paginated feed (`body ?? []` is modelled as the
plain list). -/
structure TxPage where
  body : List Tx
  totalPageNumber : Option Int
  currentPageNumber : Option Int
deriving DecidableEq

/-- Models `outputs.find(o => o.address?.toLowerCase() === address)` followed by
`match?.coins?.tfuelwei`, the `!tfuelwei` falsiness skip, and
`weiToNumber(tfuelwei, 18)`: the matching self-output amount of a record,
`none` when any step bails out. -/
def txSelfAmt (address : List Char) (tx : Tx) : Option Int :=
  match tx.outputs.find? (fun o =>
      decide (o.address.map (List.map jsToLower) = some address)) with
  | none => none
  | some o =>
    match o.tfuelwei with
    | none => none
    | some w => if w.isEmpty then none else weiToNumber w 18

/-- Models `totalPages != null && currentPage >= totalPages` where
`currentPage = pageRes.currentPageNumber ?? page`. -/
def pageStop (pg : TxPage) (page : Int) : Bool :=
  match pg.totalPageNumber with
  | none => false
  | some tp => decide (pg.currentPageNumber.getD page ≥ tp)

/-- Models `body.at(-1)` followed by the finite-timestamp extraction: the parsed
timestamp of the last record of a page, if any. -/
def lastTs (body : List Tx) : Option Int :=
  body.getLast?.bind Tx.timestamp

/-! ### Since-mode walker (`earned` endpoint, GET inner loop) -/

/-- Accumulator of the per-page record scan of the earned endpoint:
`total`, `lastRewardAt` and the page-local `reachedBeforeSince` flag. -/
structure PageScan where
  total : Int
  lastRewardAt : Option Int
  reachedBeforeSince : Bool
deriving DecidableEq

/-- One iteration of `for (const tx of body)` in the earned endpoint. -/
def scanTx (address : List Char) (sinceSec : Int) (s : PageScan) (tx : Tx) :
    PageScan :=
  match tx.timestamp with
  | none => s
  | some ts =>
    if ts = 0 then s
    else if ts < sinceSec then { s with reachedBeforeSince := true }
    else
      match txSelfAmt address tx with
      | none => s
      | some amt =>
        if amt ≤ 0 then s
        else
          { s with
            total := s.total + amt
            lastRewardAt :=
              match s.lastRewardAt with
              | none => some ts
              | some l => if ts > l then some ts else some l }

/-- Result of the earned endpoint's per-address walk. -/
structure EarnedAcc where
  total : Int
  lastRewardAt : Option Int
  pagesFetched : Nat
deriving DecidableEq

/-- The `for (let page = 1; page <= maxPages; page++)` loop of the earned
endpoint, with the remaining iteration count as fuel.  `pagesFetched` is
incremented on loop entry, before the fetch, exactly as in the source. -/
def earnedGo (feed : Nat → TxPage) (address : List Char) (sinceSec : Int) :
    Nat → Nat → Int → Option Int → Nat → EarnedAcc
  | _, 0, total, last, fetched => ⟨total, last, fetched⟩
  | page, fuel + 1, total, last, fetched =>
    let txs := feed page
    if txs.body.isEmpty then ⟨total, last, fetched + 1⟩
    else
      let s := txs.body.foldl (scanTx address sinceSec) ⟨total, last, false⟩
      if s.reachedBeforeSince then ⟨s.total, s.lastRewardAt, fetched + 1⟩
      else if pageStop txs page then ⟨s.total, s.lastRewardAt, fetched + 1⟩
      else earnedGo feed address sinceSec (page + 1) fuel s.total
        s.lastRewardAt (fetched + 1)

/-- The earned endpoint's per-address pagination walk: pages 1..40
(`maxPages = 40`), starting from zero totals. -/
def earnedWalk (feed : Nat → TxPage) (address : List Char) (sinceSec : Int) :
    EarnedAcc :=
  earnedGo feed address sinceSec 1 40 0 none 0

/-! ### Windowed walker (`rewards` endpoint) -/

/-- Accumulators of the rewards endpoint's `ingest`. -/
structure RewardsAcc where
  rewards7d : Int
  rewards30d : Int
  lastRewardAt : Option Int
deriving DecidableEq

/-- One iteration of the `for (const tx of list)` loop in `ingest` of the
rewards endpoint.  `nowSec` is the request clock in seconds. -/
def ingestTx (address : List Char) (nowSec : Int) (acc : RewardsAcc)
    (tx : Tx) : RewardsAcc :=
  match tx.timestamp with
  | none => acc
  | some ts =>
    if ts = 0 then acc
    else if ts < nowSec - 2592000 then acc
    else
      match txSelfAmt address tx with
      | none => acc
      | some amt =>
        if amt ≤ 0 then acc
        else
          { rewards7d :=
              acc.rewards7d + (if ts ≥ nowSec - 604800 then amt else 0)
            rewards30d :=
              acc.rewards30d + (if ts ≥ nowSec - 2592000 then amt else 0)
            lastRewardAt :=
              match acc.lastRewardAt with
              | none => some ts
              | some l => if ts > l then some ts else some l }

/-- Models `ingest` over a whole page body. -/
def ingestPage (address : List Char) (nowSec : Int) (acc : RewardsAcc)
    (body : List Tx) : RewardsAcc :=
  body.foldl (ingestTx address nowSec) acc

/-- The `while (page <= maxPages)` loop of the rewards endpoint
(pages 2..25), with fuel; the second result component counts pages
fetched from the feed. -/
def rewardsGo (feed : Nat → TxPage) (address : List Char) (nowSec : Int) :
    Nat → Nat → RewardsAcc → Option Int → Nat → RewardsAcc × Nat
  | _, 0, acc, _, fetched => (acc, fetched)
  | page, fuel + 1, acc, oldest, fetched =>
    if (match oldest with
        | some t => decide (t < nowSec - 2592000)
        | none => false) then (acc, fetched)
    else
      let txs := feed page
      if txs.body.isEmpty then (acc, fetched + 1)
      else
        let acc2 := ingestPage address nowSec acc txs.body
        let oldest2 :=
          match lastTs txs.body with
          | some t => some t
          | none => oldest
        if pageStop txs page then (acc2, fetched + 1)
        else rewardsGo feed address nowSec (page + 1) fuel acc2 oldest2
          (fetched + 1)

/-- The rewards endpoint's per-address pagination walk: page 1 is fetched
unconditionally (`getCoinbaseTxs`), then the loop covers pages 2..25
(`maxPages = 25`).  Returns the accumulators and the number of feed pages
requested. -/
def rewardsWalk (feed : Nat → TxPage) (address : List Char) (nowSec : Int) :
    RewardsAcc × Nat :=
  let txs := feed 1
  let acc := ingestPage address nowSec ⟨0, 0, none⟩ txs.body
  let oldest := lastTs txs.body
  rewardsGo feed address nowSec 2 24 acc oldest 1

/-! ### Response cache (`responseCache` Map, one per endpoint) -/

/-- A `Map<string, { ts, payload }>`: most recent write first. -/
abbrev Cache (α : Type) : Type := List (List Char × Int × α)

def cacheGet {α : Type} (c : Cache α) (k : List Char) : Option (Int × α) :=
  (List.find? (fun e => decide (e.1 = k)) c).map Prod.snd

def cacheSet {α : Type} (c : Cache α) (k : List Char) (ts : Int) (v : α) :
    Cache α :=
  (k, ts, v) :: c

/-- Models `x || null` applied to a numeric sum (zero is falsy). -/
def zeroToNull (n : Int) : Option Int := if n = 0 then none else some n

/-! ### Rewards endpoint handler -/

/-- One entry of `stake.body.sourceRecords`. -/
structure StakeRecord where
  amount : Option (List Char)
  withdrawn : Option Bool
deriving DecidableEq

/-- The upstream explorer as seen by the rewards endpoint: per address,
the account `balance.tfuelwei` string (if present), the stake source
records, and the paginated coinbase-transaction feed. -/
structure RewardsUpstream where
  account : List Char → Option (List Char)
  stake : List Char → List StakeRecord
  feed : List Char → Nat → TxPage

/-- One element of `results` in the rewards response. -/
structure RewardResult where
  address : List Char
  tfuelBalance : Option Int
  stakedTheta : Option Int
  rewards7d : Option Int
  rewards30d : Option Int
  lastRewardAt : Option Int
deriving DecidableEq

structure RewardsPayload where
  addresses : List (List Char)
  results : List RewardResult
  fetchedAt : Int
deriving DecidableEq

inductive RewardsResponse
  | ok (payload : RewardsPayload)
  | err (status : Nat) (msg : String)
deriving DecidableEq

/-- The staked-theta aggregation: sum over non-withdrawn stake records
of the converted amounts (`r.withdrawn === false`, falsy/unparseable
amounts dropped). -/
def stakedSum (up : RewardsUpstream) (address : List Char) : Int :=
  (((up.stake address).filter
      (fun r => decide (r.withdrawn = some false))).filterMap
    (fun r =>
      match r.amount with
      | none => none
      | some a => if a.isEmpty then none else weiToNumber a 18)).sum

/-- The per-address body of the rewards endpoint's `Promise.all` fan-out:
balance conversion, staked-theta aggregation, and the pagination walk.
Returns the result row and the number of feed pages requested. -/
def rewardsForAddress (up : RewardsUpstream) (address : List Char)
    (nowSec : Int) : RewardResult × Nat :=
  let tfuelBalance :=
    match up.account address with
    | none => none
    | some w => if w.isEmpty then none else weiToNumber w 18
  let walk := rewardsWalk (up.feed address) address nowSec
  (⟨address, tfuelBalance, zeroToNull (stakedSum up address),
    zeroToNull walk.1.rewards7d, zeroToNull walk.1.rewards30d,
    walk.1.lastRewardAt⟩, walk.2)

/-- The `cacheKey` of the rewards endpoint:
`addresses:${addressesRaw.toLowerCase()}`. -/
def rewardsKey (raw : List Char) : List Char :=
  "addresses:".toList ++ raw.map jsToLower

/-- The rewards GET handler after the cache check: validation, fan-out,
payload assembly and cache write.  The third component counts upstream
requests (account + stake + feed pages per address). -/
def handleRewardsCore (cache : Cache RewardsPayload) (nowMs : Int)
    (addressesRaw : List Char) (up : RewardsUpstream) :
    RewardsResponse × Cache RewardsPayload × Nat :=
  let addresses := toAddressList addressesRaw
  if addresses.isEmpty then (.err 400 "Missing addresses", cache, 0)
  else if addresses.all isHexAddress then
    let nowSec := nowMs.fdiv 1000
    let per := addresses.map (fun a => rewardsForAddress up a nowSec)
    let payload : RewardsPayload := ⟨addresses, per.map Prod.fst, nowMs⟩
    (.ok payload, cacheSet cache (rewardsKey addressesRaw) nowMs payload,
      (per.map (fun pr => 2 + pr.2)).sum)
  else (.err 400 "Invalid address", cache, 0)

/-- The rewards GET handler (`CACHE_TTL_MS = 45_000`). -/
def handleRewards (cache : Cache RewardsPayload) (nowMs : Int)
    (addressesRaw : List Char) (up : RewardsUpstream) :
    RewardsResponse × Cache RewardsPayload × Nat :=
  match cacheGet cache (rewardsKey addressesRaw) with
  | some (ts, payload) =>
    if nowMs - ts < 45000 then (.ok payload, cache, 0)
    else handleRewardsCore cache nowMs addressesRaw up
  | none => handleRewardsCore cache nowMs addressesRaw up

/-! ### Earned endpoint handler -/

/-- Models `Number(sinceRaw)` for the earned endpoint's `since` query
parameter, restricted to integer-valued numerals (the parameter is a
unix-seconds timestamp): whitespace-trimmed, empty = 0, decimal numerals
with optional sign, radix-prefixed forms.  `none` models a non-finite
parse (`NaN`), which the endpoint rejects.  Fractional and exponent
syntax, which `Number` additionally accepts, lies outside this integer
model. -/
def parseJsNumberInt (s : List Char) : Option Int := parseBigInt s

structure EarnedResult where
  address : List Char
  earned : Option Int
  lastRewardAt : Option Int
  pagesFetched : Nat
deriving DecidableEq

structure EarnedPayload where
  sinceSec : Int
  addresses : List (List Char)
  results : List EarnedResult
  fetchedAt : Int
deriving DecidableEq

inductive EarnedResponse
  | ok (payload : EarnedPayload)
  | err (status : Nat) (msg : String)
deriving DecidableEq

/-- The `cacheKey` of the earned endpoint:
`addresses:${addressesRaw.toLowerCase()}|since:${sinceRaw}`. -/
def earnedKey (raw sinceRaw : List Char) : List Char :=
  "addresses:".toList ++ raw.map jsToLower ++ "|since:".toList ++ sinceRaw

/-- Per-address body of the earned endpoint's fan-out. -/
def earnedForAddress (feed : Nat → TxPage) (address : List Char)
    (sinceSec : Int) : EarnedResult :=
  let acc := earnedWalk feed address sinceSec
  ⟨address, zeroToNull acc.total, acc.lastRewardAt, acc.pagesFetched⟩

/-- The earned GET handler after the cache check.  The third component
counts upstream requests (feed pages per address). -/
def handleEarnedCore (cache : Cache EarnedPayload) (nowMs : Int)
    (addressesRaw sinceRaw : List Char)
    (feed : List Char → Nat → TxPage) :
    EarnedResponse × Cache EarnedPayload × Nat :=
  let addresses := toAddressList addressesRaw
  if addresses.isEmpty then (.err 400 "Missing addresses", cache, 0)
  else if addresses.all isHexAddress then
    match parseJsNumberInt sinceRaw with
    | none => (.err 400 "Invalid since", cache, 0)
    | some sinceSec =>
      if sinceSec ≤ 0 then (.err 400 "Invalid since", cache, 0)
      else
        let per := addresses.map (fun a => earnedForAddress (feed a) a sinceSec)
        let payload : EarnedPayload := ⟨sinceSec, addresses, per, nowMs⟩
        (.ok payload, cacheSet cache (earnedKey addressesRaw sinceRaw) nowMs
          payload, (per.map EarnedResult.pagesFetched).sum)
  else (.err 400 "Invalid address", cache, 0)

/-- The earned GET handler (`CACHE_TTL_MS = 120_000`). -/
def handleEarned (cache : Cache EarnedPayload) (nowMs : Int)
    (addressesRaw sinceRaw : List Char)
    (feed : List Char → Nat → TxPage) :
    EarnedResponse × Cache EarnedPayload × Nat :=
  match cacheGet cache (earnedKey addressesRaw sinceRaw) with
  | some (ts, payload) =>
    if nowMs - ts < 120000 then (.ok payload, cache, 0)
    else handleEarnedCore cache nowMs addressesRaw sinceRaw feed
  | none => handleEarnedCore cache nowMs addressesRaw sinceRaw feed

/-! ### Local Incremental Tracker (client refresh step) -/

/-- The persisted tracking state (`thetaRewardsTracking.v1`): baselines
and day-keyed series are modelled as total maps into `Option Int`
(`none` = key absent or stored null).  Balances are in the same
micro-unit scale as `weiToNumber`. -/
structure TrackingState where
  startedAt : Int
  baselines : List Char → Option Int
  series : List Char → List Char → Option Int

/-- One iteration of `for (const r of json.results)` in the refresh
updater: with a non-null baseline and a non-null current balance, write
`series[r.address][todayKey] = Math.max(0, tfuelBalance - baseline)`
(other day keys and other addresses untouched); otherwise skip the row
(`continue`). -/
def trackerStep (prev : TrackingState) (todayKey : List Char)
    (ser : List Char → List Char → Option Int) (r : RewardResult) :
    List Char → List Char → Option Int :=
  match prev.baselines r.address, r.tfuelBalance with
  | some base, some cur =>
    fun a d =>
      if a = r.address then
        if d = todayKey then some (jsMax 0 (cur - base)) else ser a d
      else ser a d
  | _, _ => ser

/-- The `setTracking` updater run on every successful balance refresh
(Running-state self-loop). -/
def trackerRefresh (todayKey : List Char) (results : List RewardResult)
    (prev : TrackingState) : TrackingState :=
  { prev with
    series := results.foldl (trackerStep prev todayKey) prev.series }

/-! ### Derived record-level quantities used by the claim statements -/

/-- The contribution of one record to the earned total: the matching
self-output amount when the record has a truthy finite timestamp that is
not before `sinceSec` and a parseable positive amount, `0` otherwise. -/
def txEarn (address : List Char) (sinceSec : Int) (tx : Tx) : Int :=
  match tx.timestamp with
  | none => 0
  | some ts =>
    if ts = 0 then 0
    else if ts < sinceSec then 0
    else
      match txSelfAmt address tx with
      | none => 0
      | some amt => if amt ≤ 0 then 0 else amt

/-- Whether a record triggers the earned endpoint's
`reachedBeforeSince` flag: a truthy finite timestamp before `sinceSec`. -/
def txOld (sinceSec : Int) (tx : Tx) : Bool :=
  match tx.timestamp with
  | none => false
  | some ts => if ts = 0 then false else decide (ts < sinceSec)

def pageEarned (address : List Char) (sinceSec : Int) (body : List Tx) : Int :=
  (body.map (txEarn address sinceSec)).sum

/-- Sum of `pageEarned` over pages `page, page+1, …, page+n-1`. -/
def earnSumRange (feed : Nat → TxPage) (address : List Char)
    (sinceSec : Int) : Nat → Nat → Int
  | _, 0 => 0
  | page, n + 1 =>
    pageEarned address sinceSec (feed page).body
      + earnSumRange feed address sinceSec (page + 1) n

/-- Page `i` of the feed lets the earned walker continue: non-empty body,
no record before `sinceSec`, and no `currentPage >= totalPages` stop. -/
def EarnedOk (feed : Nat → TxPage) (sinceSec : Int) (i : Nat) : Prop :=
  (feed i).body ≠ [] ∧ (feed i).body.any (txOld sinceSec) = false ∧
    pageStop (feed i) (i : Int) = false

instance (feed : Nat → TxPage) (sinceSec : Int) (i : Nat) :
    Decidable (EarnedOk feed sinceSec i) :=
  decidable_of_iff ((feed i).body ≠ [] ∧
    (feed i).body.any (txOld sinceSec) = false ∧
    pageStop (feed i) (i : Int) = false) Iff.rfl

/-- Contribution of one record to `rewards30d` (the guard chain of
`ingest` followed by the 30-day window test). -/
def tx30 (address : List Char) (nowSec : Int) (tx : Tx) : Int :=
  match tx.timestamp with
  | none => 0
  | some ts =>
    if ts = 0 then 0
    else if ts < nowSec - 2592000 then 0
    else
      match txSelfAmt address tx with
      | none => 0
      | some amt =>
        if amt ≤ 0 then 0 else if ts ≥ nowSec - 2592000 then amt else 0

/-- Contribution of one record to `rewards7d`. -/
def tx7 (address : List Char) (nowSec : Int) (tx : Tx) : Int :=
  match tx.timestamp with
  | none => 0
  | some ts =>
    if ts = 0 then 0
    else if ts < nowSec - 2592000 then 0
    else
      match txSelfAmt address tx with
      | none => 0
      | some amt =>
        if amt ≤ 0 then 0 else if ts ≥ nowSec - 604800 then amt else 0

def page30 (address : List Char) (nowSec : Int) (body : List Tx) : Int :=
  (body.map (tx30 address nowSec)).sum

def page7 (address : List Char) (nowSec : Int) (body : List Tx) : Int :=
  (body.map (tx7 address nowSec)).sum

def sum30Range (feed : Nat → TxPage) (address : List Char)
    (nowSec : Int) : Nat → Nat → Int
  | _, 0 => 0
  | page, n + 1 =>
    page30 address nowSec (feed page).body
      + sum30Range feed address nowSec (page + 1) n

def sum7Range (feed : Nat → TxPage) (address : List Char)
    (nowSec : Int) : Nat → Nat → Int
  | _, 0 => 0
  | page, n + 1 =>
    page7 address nowSec (feed page).body
      + sum7Range feed address nowSec (page + 1) n

/-- Page `i` lets the rewards walker continue: its last record carries a
finite timestamp not older than the 30-day boundary (so the page is also
non-empty), and no `currentPage >= totalPages` stop fires on it. -/
def RewardsOk (feed : Nat → TxPage) (nowSec : Int) (i : Nat) : Prop :=
  (∃ t, lastTs (feed i).body = some t ∧ ¬ t < nowSec - 2592000) ∧
    pageStop (feed i) (i : Int) = false

instance (feed : Nat → TxPage) (nowSec : Int) (i : Nat) :
    Decidable (RewardsOk feed nowSec i) :=
  decidable_of_iff ((match lastTs (feed i).body with
      | none => false
      | some t => decide (¬ t < nowSec - 2592000)) = true ∧
    pageStop (feed i) (i : Int) = false)
    (by
      constructor
      · rintro ⟨h1, h2⟩
        refine ⟨?_, h2⟩
        cases hl : lastTs (feed i).body with
        | none => rw [hl] at h1; cases h1
        | some t => rw [hl] at h1; exact ⟨t, rfl, of_decide_eq_true h1⟩
      · rintro ⟨⟨t, ht, htok⟩, h2⟩
        refine ⟨?_, h2⟩
        rw [ht]
        exact decide_eq_true htok)

/-- A raw `addresses` query-string value that passes both validation
steps of the endpoints. -/
def ValidAddrRaw (raw : List Char) : Prop :=
  ¬ (toAddressList raw).isEmpty ∧ (toAddressList raw).all isHexAddress = true

instance (raw : List Char) : Decidable (ValidAddrRaw raw) :=
  decidable_of_iff (¬ (toAddressList raw).isEmpty ∧
    (toAddressList raw).all isHexAddress = true) Iff.rfl

/-- Every entry of the rewards response cache was stored by a
successfully validated request: its key is the rewards cache key of some
raw address string that passes validation.  This holds for every cache
state reachable from the empty one (see the preservation lemmas). -/
def RewardsCacheOK (c : Cache RewardsPayload) : Prop :=
  ∀ e ∈ c, ∃ raw, e.1 = rewardsKey raw ∧ ValidAddrRaw raw

/-- Likewise for the earned endpoint: every stored key comes from a
request with valid addresses and a finite positive `since` value. -/
def EarnedCacheOK (c : Cache EarnedPayload) : Prop :=
  ∀ e ∈ c, ∃ raw sinceRaw, e.1 = earnedKey raw sinceRaw ∧ ValidAddrRaw raw ∧
    ∃ q, parseJsNumberInt sinceRaw = some q ∧ 0 < q

/-! ### Concrete objects used by the witnesses -/

/-- A canonical valid address: `0x` followed by forty `a`s. -/
def wAddr : List Char := ("0x" ++ String.mk (List.replicate 40 'a')).toList

/-- One TFUEL in wei. -/
def wAmt : List Char := "1000000000000000000".toList

/-- A reward record of one TFUEL to `wAddr` at time `ts`. -/
def wTx (ts : Int) : Tx := ⟨some ts, [⟨some wAddr, some wAmt⟩]⟩

/-- Feed for the since-mode early-exit witness (`since = 500`): page 2
holds a record at `t = 100 < 500` after one at `t = 700 ≥ 500`. -/
def w1Feed : Nat → TxPage
  | 1 => ⟨[wTx 900, wTx 800], some 9, some 1⟩
  | 2 => ⟨[wTx 700, wTx 100], some 9, some 2⟩
  | _ => ⟨[wTx 50], some 9, some 3⟩

/-- Feed for the windowed-stop witness, `nowSec = 3000000`: page 1 spans
fresh records, page 2 ends at `t = 100`, older than
`nowSec - 2592000 = 408000`. -/
def w2Feed : Nat → TxPage
  | 1 => ⟨[wTx 2950000, wTx 2900000], some 9, some 1⟩
  | 2 => ⟨[wTx 500000, wTx 100], some 9, some 2⟩
  | _ => ⟨[wTx 50], some 9, some 3⟩

/-- An endless feed of fresh pages (every page non-empty, every record
current, `totalPageNumber` far beyond both page caps): only the
`maxPages` cap can stop a walker on it. -/
def wCapFeed : Nat → TxPage :=
  fun _ => ⟨[wTx 1000000], some 1000, some 1⟩

/-- An upstream with no data, for validation witnesses. -/
def wNoUp : RewardsUpstream :=
  ⟨fun _ => none, fun _ => [], fun _ _ => ⟨[], none, none⟩⟩

/-- An upstream with a balance, one live stake record, and the endless
fresh feed. -/
def wUp : RewardsUpstream :=
  ⟨fun _ => some wAmt, fun _ => [⟨some wAmt, some false⟩], fun _ => wCapFeed⟩

/-- Tracking state for the tracker-refresh witness: baseline 100 for
`wAddr`, empty series. -/
def wPrev : TrackingState :=
  ⟨0, fun a => if a = wAddr then some 100 else none, fun _ _ => none⟩

/-- One refresh row for `wAddr` reporting a decreased balance of 97. -/
def wResults : List RewardResult :=
  [⟨wAddr, some 97, none, none, none, none⟩]

/-! ## Lemmas about the record scan of the earned endpoint -/

theorem scanTx_total (address : List Char) (sinceSec : Int) (s : PageScan)
    (tx : Tx) :
    (scanTx address sinceSec s tx).total
      = s.total + txEarn address sinceSec tx := by
  unfold scanTx txEarn
  cases htx : tx.timestamp with
  | none => simp
  | some ts =>
    by_cases h0 : ts = 0
    · simp [h0]
    · by_cases hlt : ts < sinceSec
      · simp [h0, hlt]
      · cases hamt : txSelfAmt address tx with
        | none => simp [h0, hlt, hamt]
        | some amt =>
          by_cases hle : amt ≤ 0
          · simp [h0, hlt, hamt, hle]
          · simp [h0, hlt, hamt, hle]

theorem scanTx_flag (address : List Char) (sinceSec : Int) (s : PageScan)
    (tx : Tx) :
    (scanTx address sinceSec s tx).reachedBeforeSince
      = (s.reachedBeforeSince || txOld sinceSec tx) := by
  unfold scanTx txOld
  cases htx : tx.timestamp with
  | none => simp
  | some ts =>
    by_cases h0 : ts = 0
    · simp [h0]
    · by_cases hlt : ts < sinceSec
      · simp [h0, hlt]
      · cases hamt : txSelfAmt address tx with
        | none => simp [h0, hlt, hamt]
        | some amt =>
          by_cases hle : amt ≤ 0
          · simp [h0, hlt, hamt, hle]
          · simp [h0, hlt, hamt, hle]

theorem pageEarned_cons (address : List Char) (sinceSec : Int) (tx : Tx)
    (rest : List Tx) :
    pageEarned address sinceSec (tx :: rest)
      = txEarn address sinceSec tx + pageEarned address sinceSec rest := by
  simp [pageEarned]

theorem scanPage_total (address : List Char) (sinceSec : Int) :
    ∀ (body : List Tx) (s : PageScan),
      (body.foldl (scanTx address sinceSec) s).total
        = s.total + pageEarned address sinceSec body := by
  intro body
  induction body with
  | nil => intro s; simp [pageEarned]
  | cons tx rest ih =>
    intro s
    simp only [List.foldl_cons]
    rw [ih, scanTx_total, pageEarned_cons]
    omega

theorem scanPage_flag (address : List Char) (sinceSec : Int) :
    ∀ (body : List Tx) (s : PageScan),
      (body.foldl (scanTx address sinceSec) s).reachedBeforeSince
        = (s.reachedBeforeSince || body.any (txOld sinceSec)) := by
  intro body
  induction body with
  | nil => intro s; simp
  | cons tx rest ih =>
    intro s
    simp only [List.foldl_cons, List.any_cons]
    rw [ih, scanTx_flag, Bool.or_assoc]

/-- Core induction for the since-mode early exit: if `k` consecutive
pages starting at `page` let the walker continue and page `page + k`
contains a record older than `sinceSec`, the loop ingests exactly pages
`page … page+k` and stops. -/
theorem earnedGo_firstOld (feed : Nat → TxPage) (address : List Char)
    (sinceSec : Int) :
    ∀ (k fuel page : Nat) (total : Int) (last : Option Int) (fetched : Nat),
      k < fuel →
      (∀ i, page ≤ i → i < page + k → EarnedOk feed sinceSec i) →
      (feed (page + k)).body.any (txOld sinceSec) = true →
      (earnedGo feed address sinceSec page fuel total last fetched).total
          = total + earnSumRange feed address sinceSec page (k + 1)
        ∧ (earnedGo feed address sinceSec page fuel total last
            fetched).pagesFetched = fetched + (k + 1) := by
  intro k
  induction k with
  | zero =>
    intro fuel page total last fetched hk hok hany
    obtain ⟨m, rfl⟩ : ∃ m, fuel = m + 1 := ⟨fuel - 1, by omega⟩
    simp only [Nat.add_zero] at hany
    have hne : ((feed page).body.isEmpty) = false := by
      cases hb : (feed page).body with
      | nil => rw [hb] at hany; simp at hany
      | cons a as => rfl
    have hflag :
        (List.foldl (scanTx address sinceSec) ⟨total, last, false⟩
          (feed page).body).reachedBeforeSince = true := by
      rw [scanPage_flag]
      simpa using hany
    simp only [earnedGo, hne, Bool.false_eq_true, if_false, hflag, if_true]
    rw [scanPage_total]
    unfold earnSumRange earnSumRange
    simp
  | succ k ih =>
    intro fuel page total last fetched hk hok hany
    obtain ⟨m, rfl⟩ : ∃ m, fuel = m + 1 := ⟨fuel - 1, by omega⟩
    obtain ⟨hne, hnoold, hnostop⟩ := hok page (le_refl _) (by omega)
    have hne' : ((feed page).body.isEmpty) = false := by
      cases hb : (feed page).body with
      | nil => exact absurd hb hne
      | cons a as => rfl
    set s1 := List.foldl (scanTx address sinceSec) ⟨total, last, false⟩
      (feed page).body with hs1
    have hflag : s1.reachedBeforeSince = false := by
      rw [hs1, scanPage_flag]; simpa using hnoold
    have hst : s1.total = total + pageEarned address sinceSec (feed page).body := by
      rw [hs1, scanPage_total]
    have hrec := ih m (page + 1) s1.total s1.lastRewardAt
      (fetched + 1) (by omega)
      (fun i h1 h2 => hok i (by omega) (by omega))
      (by
        have h : page + 1 + k = page + (k + 1) := by omega
        rw [h]; exact hany)
    simp only [earnedGo, hne', Bool.false_eq_true, if_false]
    rw [← hs1, hflag]
    simp only [Bool.false_eq_true, if_false, hnostop]
    unfold earnSumRange
    constructor
    · rw [hrec.1, hst]; omega
    · rw [hrec.2]; omega

/-- C1: in the since-mode earned walk, for every address and every feed,
if the walker reaches page `p` (pages before `p` are non-empty, contain
no record older than `since`, and raise no page-count stop) and page `p`
contains a record with timestamp < `since`, then the walker stops after
finishing page `p` — it fetches exactly `p` pages and never requests
page `p + 1` — while the earned total still includes every well-formed
record of pages `1 … p` with timestamp ≥ `since` and positive matching
self-output amount (the per-page sums `pageEarned` count exactly
those). -/
theorem earned_since_early_exit (feed : Nat → TxPage) (address : List Char)
    (sinceSec : Int) (p : Nat) (hp1 : 1 ≤ p) (hp40 : p ≤ 40)
    (hok : ∀ i, i < p → 1 ≤ i → EarnedOk feed sinceSec i)
    (hold : (feed p).body.any (txOld sinceSec) = true) :
    (earnedWalk feed address sinceSec).pagesFetched = p ∧
    (earnedWalk feed address sinceSec).total
      = earnSumRange feed address sinceSec 1 p := by
  obtain ⟨k, rfl⟩ : ∃ k, p = k + 1 := ⟨p - 1, by omega⟩
  have h := earnedGo_firstOld feed address sinceSec k 40 1 0 none 0
    (by omega) (fun i h1 h2 => hok i (by omega) h1)
    (by
      have he : 1 + k = k + 1 := by omega
      rw [he]; exact hold)
  unfold earnedWalk
  constructor
  · rw [h.2]; omega
  · rw [h.1]; omega

/-- Witness for C1 at the concrete feed `w1Feed` with `since = 500`:
page 2 contains a record at `t = 100 < 500`, so exactly 2 pages are
fetched and the total is the two-page qualifying sum. -/
theorem earned_since_early_exit_witness :
    (earnedWalk w1Feed wAddr 500).pagesFetched = 2 ∧
    (earnedWalk w1Feed wAddr 500).total
      = earnSumRange w1Feed wAddr 500 1 2 :=
  earned_since_early_exit w1Feed wAddr 500 2 (by decide) (by decide)
    (by decide) (by decide)

/-! ## Lemmas about `ingest` of the rewards endpoint -/

theorem ingestTx_r30 (address : List Char) (nowSec : Int) (acc : RewardsAcc)
    (tx : Tx) :
    (ingestTx address nowSec acc tx).rewards30d
      = acc.rewards30d + tx30 address nowSec tx := by
  unfold ingestTx tx30
  cases htx : tx.timestamp with
  | none => simp
  | some ts =>
    by_cases h0 : ts = 0
    · simp [h0]
    · by_cases hlt : ts < nowSec - 2592000
      · simp [h0, hlt]
      · cases hamt : txSelfAmt address tx with
        | none => simp [h0, hlt, hamt]
        | some amt =>
          by_cases hle : amt ≤ 0
          · simp [h0, hlt, hamt, hle]
          · simp [h0, hlt, hamt, hle]

theorem ingestTx_r7 (address : List Char) (nowSec : Int) (acc : RewardsAcc)
    (tx : Tx) :
    (ingestTx address nowSec acc tx).rewards7d
      = acc.rewards7d + tx7 address nowSec tx := by
  unfold ingestTx tx7
  cases htx : tx.timestamp with
  | none => simp
  | some ts =>
    by_cases h0 : ts = 0
    · simp [h0]
    · by_cases hlt : ts < nowSec - 2592000
      · simp [h0, hlt]
      · cases hamt : txSelfAmt address tx with
        | none => simp [h0, hlt, hamt]
        | some amt =>
          by_cases hle : amt ≤ 0
          · simp [h0, hlt, hamt, hle]
          · simp [h0, hlt, hamt, hle]

theorem ingestPage_r30 (address : List Char) (nowSec : Int) :
    ∀ (body : List Tx) (acc : RewardsAcc),
      (ingestPage address nowSec acc body).rewards30d
        = acc.rewards30d + page30 address nowSec body := by
  intro body
  induction body with
  | nil => intro acc; simp [ingestPage, page30]
  | cons tx rest ih =>
    intro acc
    simp only [ingestPage, List.foldl_cons] at *
    rw [ih, ingestTx_r30]
    simp only [page30, List.map_cons, List.sum_cons]
    omega

theorem ingestPage_r7 (address : List Char) (nowSec : Int) :
    ∀ (body : List Tx) (acc : RewardsAcc),
      (ingestPage address nowSec acc body).rewards7d
        = acc.rewards7d + page7 address nowSec body := by
  intro body
  induction body with
  | nil => intro acc; simp [ingestPage, page7]
  | cons tx rest ih =>
    intro acc
    simp only [ingestPage, List.foldl_cons] at *
    rw [ih, ingestTx_r7]
    simp only [page7, List.map_cons, List.sum_cons]
    omega

/-- Once the tracked oldest timestamp is older than the 30-day boundary,
the rewards loop stops at its head without fetching. -/
theorem rewardsGo_stopped (feed : Nat → TxPage) (address : List Char)
    (nowSec : Int) (page fuel : Nat) (acc : RewardsAcc) (t : Int)
    (fetched : Nat) (ht : t < nowSec - 2592000) :
    rewardsGo feed address nowSec page fuel acc (some t) fetched
      = (acc, fetched) := by
  cases fuel with
  | zero => rfl
  | succ m => simp [rewardsGo, ht]

/-- Core induction for the windowed stop: with the tracked oldest
timestamp still inside the window, `k` continuing pages followed by a
page whose last record is older than the boundary yield exactly `k + 1`
further fetches and the corresponding windowed sums. -/
theorem rewardsGo_boundary (feed : Nat → TxPage) (address : List Char)
    (nowSec : Int) :
    ∀ (k fuel page : Nat) (acc : RewardsAcc) (t : Int) (fetched : Nat),
      ¬ t < nowSec - 2592000 →
      k + 1 ≤ fuel →
      (∀ i, page ≤ i → i < page + k → RewardsOk feed nowSec i) →
      (∃ tp, lastTs (feed (page + k)).body = some tp
        ∧ tp < nowSec - 2592000) →
      (rewardsGo feed address nowSec page fuel acc (some t)
          fetched).1.rewards30d
        = acc.rewards30d + sum30Range feed address nowSec page (k + 1)
      ∧ (rewardsGo feed address nowSec page fuel acc (some t)
          fetched).1.rewards7d
        = acc.rewards7d + sum7Range feed address nowSec page (k + 1)
      ∧ (rewardsGo feed address nowSec page fuel acc (some t) fetched).2
        = fetched + (k + 1) := by
  intro k
  induction k with
  | zero =>
    intro fuel page acc t fetched ht hk hok hstop
    obtain ⟨m, rfl⟩ : ∃ m, fuel = m + 1 := ⟨fuel - 1, by omega⟩
    simp only [Nat.add_zero] at hstop
    obtain ⟨tp, htp, htpold⟩ := hstop
    have hne : ((feed page).body.isEmpty) = false := by
      cases hb : (feed page).body with
      | nil => rw [hb] at htp; simp [lastTs] at htp
      | cons a as => rfl
    have holdest : (match lastTs (feed page).body with
        | some t => some t
        | none => (some t : Option Int)) = some tp := by
      rw [htp]
    simp only [rewardsGo, ht, decide_eq_true_eq, if_false, hne,
      Bool.false_eq_true, holdest]
    rw [rewardsGo_stopped feed address nowSec _ _ _ _ _ htpold, ite_self]
    refine ⟨?_, ?_, rfl⟩
    · show (ingestPage address nowSec acc (feed page).body).rewards30d = _
      rw [ingestPage_r30]
      unfold sum30Range sum30Range
      simp
    · show (ingestPage address nowSec acc (feed page).body).rewards7d = _
      rw [ingestPage_r7]
      unfold sum7Range sum7Range
      simp
  | succ k ih =>
    intro fuel page acc t fetched ht hk hok hstop
    obtain ⟨m, rfl⟩ : ∃ m, fuel = m + 1 := ⟨fuel - 1, by omega⟩
    obtain ⟨⟨t1, ht1, ht1ok⟩, hnostop⟩ := hok page (le_refl _) (by omega)
    have hne : ((feed page).body.isEmpty) = false := by
      cases hb : (feed page).body with
      | nil => rw [hb] at ht1; simp [lastTs] at ht1
      | cons a as => rfl
    have holdest : (match lastTs (feed page).body with
        | some t => some t
        | none => (some t : Option Int)) = some t1 := by
      rw [ht1]
    have hrec := ih m (page + 1)
      (ingestPage address nowSec acc (feed page).body) t1 (fetched + 1)
      ht1ok (by omega) (fun i h1 h2 => hok i (by omega) (by omega))
      (by
        have he : page + 1 + k = page + (k + 1) := by omega
        rw [he]; exact hstop)
    have hsum30 : sum30Range feed address nowSec page (k + 1 + 1)
        = page30 address nowSec (feed page).body
          + sum30Range feed address nowSec (page + 1) (k + 1) := rfl
    have hsum7 : sum7Range feed address nowSec page (k + 1 + 1)
        = page7 address nowSec (feed page).body
          + sum7Range feed address nowSec (page + 1) (k + 1) := rfl
    simp only [rewardsGo, ht, decide_eq_true_eq, if_false, hne,
      Bool.false_eq_true, holdest, hnostop]
    refine ⟨?_, ?_, ?_⟩
    · rw [hrec.1, ingestPage_r30, hsum30]
      omega
    · rw [hrec.2.1, ingestPage_r7, hsum7]
      omega
    · rw [hrec.2.2]; omega

/-- C2: for the windowed rewards walker, once it reaches a page `p`
whose oldest (last) record timestamp is older than `nowSec - 30d`
(earlier pages all continuing), it fetches exactly `p` pages and no
more, and the accumulated sums are the per-page windowed sums — in which
a record older than `nowSec - 30d` contributes `0` to both windows, as
the final conjunct states for `ingest` directly. -/
theorem rewards_window_stop (feed : Nat → TxPage) (address : List Char)
    (nowSec : Int) (p : Nat) (hp1 : 1 ≤ p) (hp25 : p ≤ 25)
    (hok : ∀ i, i < p → 1 ≤ i → RewardsOk feed nowSec i)
    (hstop : ∃ tp, lastTs (feed p).body = some tp
      ∧ tp < nowSec - 2592000) :
    ((rewardsWalk feed address nowSec).2 = p
      ∧ (rewardsWalk feed address nowSec).1.rewards30d
          = sum30Range feed address nowSec 1 p
      ∧ (rewardsWalk feed address nowSec).1.rewards7d
          = sum7Range feed address nowSec 1 p)
    ∧ ∀ (acc : RewardsAcc) (tx : Tx) (ts : Int), tx.timestamp = some ts →
        ts < nowSec - 2592000 → ingestTx address nowSec acc tx = acc := by
  have hwalk : rewardsWalk feed address nowSec
      = rewardsGo feed address nowSec 2 24
          (ingestPage address nowSec ⟨0, 0, none⟩ (feed 1).body)
          (lastTs (feed 1).body) 1 := rfl
  constructor
  · rcases Nat.lt_or_ge p 2 with hp | hp
    · have hp1' : p = 1 := by omega
      subst hp1'
      obtain ⟨tp, htp, htpold⟩ := hstop
      rw [hwalk, htp, rewardsGo_stopped feed address nowSec _ _ _ _ _ htpold]
      refine ⟨rfl, ?_, ?_⟩
      · show (ingestPage address nowSec ⟨0, 0, none⟩ (feed 1).body).rewards30d
          = _
        rw [ingestPage_r30]
        have hs : sum30Range feed address nowSec 1 1
            = page30 address nowSec (feed 1).body
              + sum30Range feed address nowSec 2 0 := rfl
        rw [hs]
        simp [sum30Range]
      · show (ingestPage address nowSec ⟨0, 0, none⟩ (feed 1).body).rewards7d
          = _
        rw [ingestPage_r7]
        have hs : sum7Range feed address nowSec 1 1
            = page7 address nowSec (feed 1).body
              + sum7Range feed address nowSec 2 0 := rfl
        rw [hs]
        simp [sum7Range]
    · obtain ⟨k, rfl⟩ : ∃ k, p = k + 2 := ⟨p - 2, by omega⟩
      obtain ⟨⟨t1, ht1, ht1ok⟩, hstop1⟩ := hok 1 (by omega) (le_refl 1)
      rw [hwalk, ht1]
      have h := rewardsGo_boundary feed address nowSec k 24 2
        (ingestPage address nowSec ⟨0, 0, none⟩ (feed 1).body) t1 1 ht1ok
        (by omega) (fun i hi1 hi2 => hok i (by omega) (by omega))
        (by
          have he : 2 + k = k + 2 := by omega
          rw [he]; exact hstop)
      have hs30 : sum30Range feed address nowSec 1 (k + 2)
          = page30 address nowSec (feed 1).body
            + sum30Range feed address nowSec 2 (k + 1) := rfl
      have hs7 : sum7Range feed address nowSec 1 (k + 2)
          = page7 address nowSec (feed 1).body
            + sum7Range feed address nowSec 2 (k + 1) := rfl
      have hz30 : (⟨0, 0, none⟩ : RewardsAcc).rewards30d = 0 := rfl
      have hz7 : (⟨0, 0, none⟩ : RewardsAcc).rewards7d = 0 := rfl
      refine ⟨?_, ?_, ?_⟩
      · rw [h.2.2]; omega
      · rw [h.1, ingestPage_r30, hs30, hz30]
        omega
      · rw [h.2.1, ingestPage_r7, hs7, hz7]
        omega
  · intro acc tx ts hts htsold
    unfold ingestTx
    rw [hts]
    by_cases h0 : ts = 0
    · simp [h0]
    · simp [h0, htsold]

/-- Witness for C2 at the concrete two-page feed `w2Feed` with
`nowSec = 3000000`: page 2's oldest record (`t = 100`) is older than
`nowSec - 30d = 408000`, so exactly 2 pages are fetched and the sums
are the windowed two-page sums. -/
theorem rewards_window_stop_witness :
    (((rewardsWalk w2Feed wAddr 3000000).2 = 2
      ∧ (rewardsWalk w2Feed wAddr 3000000).1.rewards30d
          = sum30Range w2Feed wAddr 3000000 1 2
      ∧ (rewardsWalk w2Feed wAddr 3000000).1.rewards7d
          = sum7Range w2Feed wAddr 3000000 1 2)
    ∧ ∀ (acc : RewardsAcc) (tx : Tx) (ts : Int), tx.timestamp = some ts →
        ts < 3000000 - 2592000 → ingestTx wAddr 3000000 acc tx = acc) :=
  rewards_window_stop w2Feed wAddr 3000000 2 (by decide) (by decide)
    (by decide) ⟨100, by decide, by decide⟩

/-! ## Page-cap lemmas -/

theorem earnedGo_fetch_le (feed : Nat → TxPage) (address : List Char)
    (sinceSec : Int) :
    ∀ (fuel page : Nat) (total : Int) (last : Option Int) (fetched : Nat),
      (earnedGo feed address sinceSec page fuel total last
        fetched).pagesFetched ≤ fetched + fuel := by
  intro fuel
  induction fuel with
  | zero => intro page total last fetched; simp [earnedGo]
  | succ m ih =>
    intro page total last fetched
    simp only [earnedGo]
    split
    · simp
    · split
      · simp
      · split
        · simp
        · exact le_trans (ih (page + 1) _ _ (fetched + 1)) (by omega)

theorem rewardsGo_fetch_le (feed : Nat → TxPage) (address : List Char)
    (nowSec : Int) :
    ∀ (fuel page : Nat) (acc : RewardsAcc) (oldest : Option Int)
      (fetched : Nat),
      (rewardsGo feed address nowSec page fuel acc oldest fetched).2
        ≤ fetched + fuel := by
  intro fuel
  induction fuel with
  | zero => intro page acc oldest fetched; simp [rewardsGo]
  | succ m ih =>
    intro page acc oldest fetched
    simp only [rewardsGo]
    split
    · simp
    · split
      · simp
      · split
        · simp
        · exact le_trans (ih (page + 1) _ _ (fetched + 1)) (by omega)

theorem earnedGo_all_fetch (feed : Nat → TxPage) (address : List Char)
    (sinceSec : Int) :
    ∀ (fuel page : Nat) (total : Int) (last : Option Int) (fetched : Nat),
      1 ≤ fuel →
      (∀ i, page ≤ i → i + 1 < page + fuel → EarnedOk feed sinceSec i) →
      (earnedGo feed address sinceSec page fuel total last
        fetched).pagesFetched = fetched + fuel := by
  intro fuel
  induction fuel with
  | zero => intro page total last fetched h1 _; exact absurd h1 (by omega)
  | succ m ih =>
    intro page total last fetched h1 hok
    by_cases hm : m = 0
    · subst hm
      simp only [earnedGo]
      split
      · simp
      · split
        · simp
        · split
          · simp
          · simp [earnedGo]
    · obtain ⟨hne, hnoold, hnostop⟩ := hok page (le_refl _) (by omega)
      have hne' : ((feed page).body.isEmpty) = false := by
        cases hb : (feed page).body with
        | nil => exact absurd hb hne
        | cons a as => rfl
      set s1 := List.foldl (scanTx address sinceSec) ⟨total, last, false⟩
        (feed page).body with hs1
      have hflag : s1.reachedBeforeSince = false := by
        rw [hs1, scanPage_flag]; simpa using hnoold
      simp only [earnedGo, hne', Bool.false_eq_true, if_false]
      rw [← hs1, hflag]
      simp only [Bool.false_eq_true, if_false, hnostop]
      rw [ih (page + 1) s1.total s1.lastRewardAt (fetched + 1) (by omega)
        (fun i hi1 hi2 => hok i (by omega) (by omega))]
      omega

theorem rewardsGo_all_fetch (feed : Nat → TxPage) (address : List Char)
    (nowSec : Int) :
    ∀ (fuel page : Nat) (acc : RewardsAcc) (t : Int) (fetched : Nat),
      1 ≤ fuel →
      ¬ t < nowSec - 2592000 →
      (∀ i, page ≤ i → i + 1 < page + fuel → RewardsOk feed nowSec i) →
      (rewardsGo feed address nowSec page fuel acc (some t) fetched).2
        = fetched + fuel := by
  intro fuel
  induction fuel with
  | zero => intro page acc t fetched h1 _ _; exact absurd h1 (by omega)
  | succ m ih =>
    intro page acc t fetched h1 ht hok
    by_cases hm : m = 0
    · subst hm
      simp only [rewardsGo, ht, decide_eq_true_eq, if_false]
      split
      · simp
      · split
        · simp
        · simp [rewardsGo]
    · obtain ⟨⟨t1, ht1, ht1ok⟩, hnostop⟩ := hok page (le_refl _) (by omega)
      have hne : ((feed page).body.isEmpty) = false := by
        cases hb : (feed page).body with
        | nil => rw [hb] at ht1; simp [lastTs] at ht1
        | cons a as => rfl
      have holdest : (match lastTs (feed page).body with
          | some t => some t
          | none => (some t : Option Int)) = some t1 := by
        rw [ht1]
      simp only [rewardsGo, ht, decide_eq_true_eq, if_false, hne,
        Bool.false_eq_true, holdest, hnostop]
      rw [ih (page + 1) (ingestPage address nowSec acc (feed page).body) t1
        (fetched + 1) (by omega) ht1ok
        (fun i hi1 hi2 => hok i (by omega) (by omega))]
      omega

/-- C3: the rewards walker never requests more than 25 pages and the
earned walker never more than 40, on any feed whatsoever; and on a feed
whose pages keep the walker going (in particular one whose
`totalPageNumber` exceeds the cap, with no stopping condition firing in
the first `maxPages` pages), each walker fetches exactly its `maxPages`:
25 for rewards, 40 for earned. -/
theorem walker_max_pages_cap :
    (∀ (feed : Nat → TxPage) (address : List Char) (nowSec : Int),
        (rewardsWalk feed address nowSec).2 ≤ 25)
    ∧ (∀ (feed : Nat → TxPage) (address : List Char) (sinceSec : Int),
        (earnedWalk feed address sinceSec).pagesFetched ≤ 40)
    ∧ (∀ (feed : Nat → TxPage) (address : List Char) (nowSec : Int),
        (∀ i, i ≤ 24 → 1 ≤ i → RewardsOk feed nowSec i) →
        (rewardsWalk feed address nowSec).2 = 25)
    ∧ (∀ (feed : Nat → TxPage) (address : List Char) (sinceSec : Int),
        (∀ i, i ≤ 39 → 1 ≤ i → EarnedOk feed sinceSec i) →
        (earnedWalk feed address sinceSec).pagesFetched = 40) := by
  refine ⟨?_, ?_, ?_, ?_⟩
  · intro feed address nowSec
    have hwalk : rewardsWalk feed address nowSec
        = rewardsGo feed address nowSec 2 24
            (ingestPage address nowSec ⟨0, 0, none⟩ (feed 1).body)
            (lastTs (feed 1).body) 1 := rfl
    rw [hwalk]
    exact le_trans (rewardsGo_fetch_le feed address nowSec 24 2 _ _ 1)
      (by omega)
  · intro feed address sinceSec
    unfold earnedWalk
    exact le_trans (earnedGo_fetch_le feed address sinceSec 40 1 0 none 0)
      (by omega)
  · intro feed address nowSec hok
    obtain ⟨⟨t1, ht1, ht1ok⟩, hstop1⟩ := hok 1 (by omega) (le_refl 1)
    have hwalk : rewardsWalk feed address nowSec
        = rewardsGo feed address nowSec 2 24
            (ingestPage address nowSec ⟨0, 0, none⟩ (feed 1).body)
            (lastTs (feed 1).body) 1 := rfl
    rw [hwalk, ht1, rewardsGo_all_fetch feed address nowSec 24 2 _ t1 1
      (by omega) ht1ok (fun i hi1 hi2 => hok i (by omega) (by omega))]
  · intro feed address sinceSec hok
    unfold earnedWalk
    rw [earnedGo_all_fetch feed address sinceSec 40 1 0 none 0 (by omega)
      (fun i hi1 hi2 => hok i (by omega) hi1)]

/-- Witness for C3 on the endless fresh feed `wCapFeed`
(`totalPageNumber = 1000`, every page non-empty and current): both
walkers hit exactly their caps, 25 and 40. -/
theorem walker_max_pages_cap_witness :
    (rewardsWalk wCapFeed wAddr 1000000).2 ≤ 25
    ∧ (earnedWalk wCapFeed wAddr 500).pagesFetched ≤ 40
    ∧ (rewardsWalk wCapFeed wAddr 1000000).2 = 25
    ∧ (earnedWalk wCapFeed wAddr 500).pagesFetched = 40 :=
  ⟨walker_max_pages_cap.1 wCapFeed wAddr 1000000,
   walker_max_pages_cap.2.1 wCapFeed wAddr 500,
   walker_max_pages_cap.2.2.1 wCapFeed wAddr 1000000 (by decide),
   walker_max_pages_cap.2.2.2 wCapFeed wAddr 500 (by decide)⟩

/-! ## Window monotonicity -/

theorem tx7_le_tx30 (address : List Char) (nowSec : Int) (tx : Tx) :
    tx7 address nowSec tx ≤ tx30 address nowSec tx := by
  unfold tx7 tx30
  cases htx : tx.timestamp with
  | none => simp
  | some ts =>
    by_cases h0 : ts = 0
    · simp [h0]
    · by_cases hlt : ts < nowSec - 2592000
      · simp [h0, hlt]
      · cases hamt : txSelfAmt address tx with
        | none => simp [h0, hlt, hamt]
        | some amt =>
          by_cases hle : amt ≤ 0
          · simp [h0, hlt, hamt, hle]
          · simp only [h0, hlt, hamt, hle, if_false]
            by_cases h7 : ts ≥ nowSec - 604800
            · simp [h7, show ts ≥ nowSec - 2592000 by omega]
            · simp only [h7, if_false]
              by_cases h30 : ts ≥ nowSec - 2592000
              · simp [h30]; omega
              · simp [h30]

theorem ingestTx_mono (address : List Char) (nowSec : Int)
    (acc : RewardsAcc) (tx : Tx)
    (h : acc.rewards7d ≤ acc.rewards30d) :
    (ingestTx address nowSec acc tx).rewards7d
      ≤ (ingestTx address nowSec acc tx).rewards30d := by
  rw [ingestTx_r7, ingestTx_r30]
  have h730 := tx7_le_tx30 address nowSec tx
  omega

theorem ingestPage_mono (address : List Char) (nowSec : Int) :
    ∀ (body : List Tx) (acc : RewardsAcc),
      acc.rewards7d ≤ acc.rewards30d →
      (ingestPage address nowSec acc body).rewards7d
        ≤ (ingestPage address nowSec acc body).rewards30d := by
  intro body
  induction body with
  | nil => intro acc h; simpa [ingestPage] using h
  | cons tx rest ih =>
    intro acc h
    simp only [ingestPage, List.foldl_cons] at *
    exact ih (ingestTx address nowSec acc tx)
      (ingestTx_mono address nowSec acc tx h)

/-- C4: for every address and page sequence ingested by the rewards
accumulator from a state where it already holds (in particular the
initial zero state), `rewards30d ≥ rewards7d` — every record that
qualifies for the 7-day window also qualifies for the 30-day window. -/
theorem rewards30d_ge_rewards7d (pages : List (List Tx))
    (address : List Char) (nowSec : Int) (acc : RewardsAcc)
    (h : acc.rewards7d ≤ acc.rewards30d) :
    (pages.foldl (ingestPage address nowSec) acc).rewards7d
      ≤ (pages.foldl (ingestPage address nowSec) acc).rewards30d := by
  induction pages generalizing acc with
  | nil => simpa using h
  | cons body rest ih =>
    simp only [List.foldl_cons]
    exact ih (ingestPage address nowSec acc body)
      (ingestPage_mono address nowSec body acc h)

/-- Witness for C4: two concrete pages ingested from the zero state at
`nowSec = 1000000`. -/
theorem rewards30d_ge_rewards7d_witness :
    ([[wTx 999000], [wTx 500, wTx 20]].foldl (ingestPage wAddr 1000000)
        ⟨0, 0, none⟩).rewards7d
      ≤ ([[wTx 999000], [wTx 500, wTx 20]].foldl (ingestPage wAddr 1000000)
        ⟨0, 0, none⟩).rewards30d :=
  rewards30d_ge_rewards7d [[wTx 999000], [wTx 500, wTx 20]] wAddr 1000000
    ⟨0, 0, none⟩ (by decide)

/-! ## The wei-to-display conversion (C5) -/

/-- C5 (amended): `weiToNumber` returns null exactly when the string
fails to parse as an arbitrary-precision integer under JS `BigInt`
syntax (which also admits signed decimal and radix-prefixed numerals,
not only non-negative ones); and whenever the parsed base `b` is
non-negative, the returned (micro-scaled) value represents exactly
`floor(b / 10^d) + floor((b mod 10^d) * 10^6 / 10^d) / 10^6` —
truncation at the 6th fractional digit with no rounding.  Here `/` and
`%` on `Int` are Euclidean (floor for the positive divisors involved). -/
theorem weiToNumber_formula :
    (∀ (s : List Char) (d : Nat),
      weiToNumber s d = none ↔ parseBigInt s = none)
    ∧ (∀ (s : List Char) (d : Nat) (b : Int), parseBigInt s = some b →
        0 ≤ b →
        ∃ m : Int, weiToNumber s d = some m ∧
          (m : ℚ) / 1000000
            = ((b / 10 ^ d : Int) : ℚ)
              + (((b % 10 ^ d) * 1000000 / 10 ^ d : Int) : ℚ)
                / 1000000) := by
  constructor
  · intro s d
    unfold weiToNumber
    cases h : parseBigInt s with
    | none => simp
    | some b => simp
  · intro s d b hb hbn
    unfold weiToNumber
    rw [hb]
    refine ⟨_, rfl, ?_⟩
    have hD : (0 : Int) < 10 ^ d := pow_pos (by norm_num) d
    have ht1 : b.tdiv (10 ^ d) = b / 10 ^ d :=
      Int.tdiv_eq_ediv hbn (le_of_lt hD)
    have ht2 : b.tmod (10 ^ d) = b % 10 ^ d :=
      Int.tmod_eq_emod hbn (le_of_lt hD)
    have hfr : (0 : Int) ≤ b % 10 ^ d := Int.emod_nonneg b (ne_of_gt hD)
    have ht3 : (b.tmod (10 ^ d) * 1000000).tdiv (10 ^ d)
        = (b % 10 ^ d) * 1000000 / 10 ^ d := by
      rw [ht2]
      exact Int.tdiv_eq_ediv (by positivity) (le_of_lt hD)
    rw [ht1, ht3]
    push_cast
    field_simp

/-- Counterexample to C5 as stated: the string `"-5"` has no parse as a
non-negative integer (its only BigInt parse is `-5`), yet `weiToNumber`
returns `0`, not null — JS `BigInt("-5")` succeeds and the truncating
divisions wipe the sign. -/
theorem weiToNumber_negative_not_null :
    (¬ ∃ b : Int, 0 ≤ b ∧ parseBigInt "-5".toList = some b)
    ∧ weiToNumber "-5".toList 18 = some 0 := by
  constructor
  · rintro ⟨b, hb0, hb⟩
    rw [show parseBigInt "-5".toList = some (-5) from by decide] at hb
    injection hb with h
    omega
  · decide

/-- Witness for C5 (amended) at the base `2500000000000000001` wei with
18 decimals. -/
theorem weiToNumber_formula_witness :
    ∃ m : Int, weiToNumber "2500000000000000001".toList 18 = some m ∧
      (m : ℚ) / 1000000
        = ((2500000000000000001 / 10 ^ 18 : Int) : ℚ)
          + (((2500000000000000001 % 10 ^ 18) * 1000000 / 10 ^ 18 : Int) : ℚ)
            / 1000000 :=
  weiToNumber_formula.2 "2500000000000000001".toList 18 2500000000000000001
    (by decide) (by decide)

/-! ## Lower-casing commutes with address-list parsing -/

theorem jsToLower_comma : ∀ c, jsToLower c = ',' ↔ c = ',' := by
  intro c
  unfold jsToLower
  split <;> simp_all

theorem jsToLower_pipe : ∀ c, jsToLower c = '|' ↔ c = '|' := by
  intro c
  unfold jsToLower
  split <;> simp_all

theorem isWsChar_jsToLower : ∀ c, isWsChar (jsToLower c) = isWsChar c := by
  intro c
  unfold jsToLower
  split <;> first | rfl | decide

theorem jsToLower_cases (c : Char) :
    jsToLower c = 'a' ∨ jsToLower c = 'b' ∨ jsToLower c = 'c' ∨
    jsToLower c = 'd' ∨ jsToLower c = 'e' ∨ jsToLower c = 'f' ∨
    jsToLower c = 'g' ∨ jsToLower c = 'h' ∨ jsToLower c = 'i' ∨
    jsToLower c = 'j' ∨ jsToLower c = 'k' ∨ jsToLower c = 'l' ∨
    jsToLower c = 'm' ∨ jsToLower c = 'n' ∨ jsToLower c = 'o' ∨
    jsToLower c = 'p' ∨ jsToLower c = 'q' ∨ jsToLower c = 'r' ∨
    jsToLower c = 's' ∨ jsToLower c = 't' ∨ jsToLower c = 'u' ∨
    jsToLower c = 'v' ∨ jsToLower c = 'w' ∨ jsToLower c = 'x' ∨
    jsToLower c = 'y' ∨ jsToLower c = 'z' ∨ jsToLower c = c := by
  unfold jsToLower
  split <;> simp

theorem jsToLower_idem : ∀ c, jsToLower (jsToLower c) = jsToLower c := by
  intro c
  rcases jsToLower_cases c with h|h|h|h|h|h|h|h|h|h|h|h|h|h|h|h|h|h|h|h|h|h|h|h|h|h|h <;>
    rw [h] <;> first | decide | exact h

theorem splitCommaAux_map (f : Char → Char)
    (hf : ∀ c, f c = ',' ↔ c = ',') :
    ∀ (l cur : List Char),
      splitCommaAux (cur.map f) (l.map f)
        = (splitCommaAux cur l).map (List.map f) := by
  intro l
  induction l with
  | nil =>
    intro cur
    simp [splitCommaAux, List.map_reverse]
  | cons c rest ih =>
    intro cur
    by_cases hc : c = ','
    · subst hc
      have h0 := ih []
      simp only [List.map_nil] at h0
      simp [splitCommaAux, ((hf ',').mpr rfl : f ',' = ','), h0,
        List.map_reverse]
    · have hfc : ¬ f c = ',' := fun h => hc ((hf c).mp h)
      simp only [List.map_cons, splitCommaAux, if_neg hfc, if_neg hc]
      have h1 := ih (c :: cur)
      simpa using h1

theorem dropWhile_map_comm (p : Char → Bool) (f : Char → Char)
    (hp : ∀ c, p (f c) = p c) :
    ∀ l : List Char, (l.map f).dropWhile p = (l.dropWhile p).map f := by
  intro l
  induction l with
  | nil => rfl
  | cons c rest ih =>
    cases hpc : p c with
    | false => simp [List.dropWhile_cons, hp c, hpc]
    | true => simp [List.dropWhile_cons, hp c, hpc, ih]

theorem trimChars_map (f : Char → Char)
    (hw : ∀ c, isWsChar (f c) = isWsChar c) (l : List Char) :
    trimChars (l.map f) = (trimChars l).map f := by
  unfold trimChars
  rw [dropWhile_map_comm _ _ hw, ← List.map_reverse,
    dropWhile_map_comm _ _ hw, List.map_reverse]

theorem toAddressList_map_lower (raw : List Char) :
    toAddressList (raw.map jsToLower) = toAddressList raw := by
  unfold toAddressList splitComma
  have hsplit := splitCommaAux_map jsToLower jsToLower_comma raw []
  simp only [List.map_nil] at hsplit
  rw [hsplit, List.map_map,
    show (trimChars ∘ List.map jsToLower)
        = (List.map jsToLower ∘ trimChars) from
      funext fun e => trimChars_map jsToLower isWsChar_jsToLower e,
    ← List.map_map, List.filter_map,
    show ((fun e => !e.isEmpty) ∘ List.map jsToLower)
        = (fun e : List Char => !e.isEmpty) from
      funext fun e => by cases e <;> rfl,
    List.map_map,
    show (List.map jsToLower ∘ List.map jsToLower)
        = List.map jsToLower from
      funext fun e => by
        rw [Function.comp_apply, List.map_map]
        exact List.map_congr_left fun c _ => jsToLower_idem c]

/-! ## Pipe-freedom of validated request parameters -/

theorem mem_splitCommaAux (c : Char) (hc : c ≠ ',') :
    ∀ (l cur : List Char), (c ∈ cur ∨ c ∈ l) →
      ∃ seg ∈ splitCommaAux cur l, c ∈ seg := by
  intro l
  induction l with
  | nil =>
    intro cur h
    rcases h with h | h
    · exact ⟨cur.reverse, by simp [splitCommaAux], by simpa using h⟩
    · cases h
  | cons a rest ih =>
    intro cur h
    by_cases ha : a = ','
    · subst ha
      simp only [splitCommaAux, if_pos rfl]
      rcases h with h | h
      · exact ⟨cur.reverse, List.mem_cons_self _ _, by simpa using h⟩
      · rcases List.mem_cons.mp h with h | h
        · exact absurd h hc
        · obtain ⟨seg, hseg, hcseg⟩ := ih [] (Or.inr h)
          exact ⟨seg, List.mem_cons_of_mem _ hseg, hcseg⟩
    · simp only [splitCommaAux, if_neg ha]
      rcases h with h | h
      · exact ih (a :: cur) (Or.inl (List.mem_cons_of_mem _ h))
      · rcases List.mem_cons.mp h with h | h
        · exact ih (a :: cur) (Or.inl (h ▸ List.mem_cons_self a cur))
        · exact ih (a :: cur) (Or.inr h)

theorem mem_dropWhile_of_neg (p : Char → Bool) (c : Char)
    (hpc : p c = false) :
    ∀ l : List Char, c ∈ l → c ∈ l.dropWhile p := by
  intro l
  induction l with
  | nil => intro h; cases h
  | cons a rest ih =>
    intro h
    cases hpa : p a with
    | false =>
      rw [List.dropWhile_cons, hpa]
      simpa using h
    | true =>
      rw [List.dropWhile_cons, hpa]
      simp only [if_true]
      rcases List.mem_cons.mp h with h | h
      · rw [h] at hpc; rw [hpc] at hpa; cases hpa
      · exact ih h

theorem mem_trimChars (c : Char) (hw : isWsChar c = false) (l : List Char)
    (h : c ∈ l) : c ∈ trimChars l := by
  unfold trimChars
  have h1 := mem_dropWhile_of_neg isWsChar c hw l h
  have h2 : c ∈ (l.dropWhile isWsChar).reverse := List.mem_reverse.mpr h1
  have h3 := mem_dropWhile_of_neg isWsChar c hw _ h2
  exact List.mem_reverse.mpr h3

theorem isHexAddress_chars (e : List Char) (h : isHexAddress e = true) :
    ∀ c ∈ e, c = '0' ∨ c = 'x' ∨ isLowerHexDigit c = true := by
  unfold isHexAddress at h
  split at h
  · rename_i rest
    intro c hc
    rcases List.mem_cons.mp hc with h0 | hc
    · exact Or.inl h0
    · rcases List.mem_cons.mp hc with h0 | hc
      · exact Or.inr (Or.inl h0)
      · simp only [Bool.and_eq_true] at h
        exact Or.inr (Or.inr ((List.all_eq_true.mp h.2) _ hc))
  · cases h

theorem pipe_not_of_valid (raw : List Char) (hv : ValidAddrRaw raw) :
    ('|' : Char) ∉ raw.map jsToLower := by
  intro hmem
  have hraw : ('|' : Char) ∈ raw := by
    rcases List.mem_map.mp hmem with ⟨c, hc, hcl⟩
    rwa [(jsToLower_pipe c).mp hcl] at hc
  obtain ⟨seg, hseg, hpseg⟩ :=
    mem_splitCommaAux '|' (by decide) raw [] (Or.inr hraw)
  have hptrim : ('|' : Char) ∈ trimChars seg :=
    mem_trimChars '|' (by decide) seg hpseg
  have hne : (trimChars seg).isEmpty = false := by
    cases ht : trimChars seg with
    | nil => rw [ht] at hptrim; cases hptrim
    | cons a as => rfl
  have hentry : (trimChars seg).map jsToLower ∈ toAddressList raw := by
    unfold toAddressList splitComma
    apply List.mem_map_of_mem
    apply List.mem_filter.mpr
    exact ⟨List.mem_map_of_mem _ hseg, by simp [hne]⟩
  have hhex := (List.all_eq_true.mp hv.2) _ hentry
  have hpentry : ('|' : Char) ∈ (trimChars seg).map jsToLower :=
    List.mem_map.mpr ⟨'|', hptrim, by decide⟩
  rcases isHexAddress_chars _ hhex '|' hpentry with h | h | h <;>
    exact absurd h (by decide)

theorem radixStep_foldl_none (base : Nat) (digit : Char → Option Nat) :
    ∀ l : List Char, l.foldl (radixStep base digit) none = none := by
  intro l
  induction l with
  | nil => rfl
  | cons a rest ih =>
    simp only [List.foldl_cons]
    rw [show radixStep base digit none a = none from rfl]
    exact ih

theorem radixStep_digit_some (base : Nat) (digit : Char → Option Nat) :
    ∀ (l : List Char) (acc : Option Nat) (n : Nat) (c : Char), c ∈ l →
      l.foldl (radixStep base digit) acc = some n →
      ∃ d, digit c = some d := by
  intro l
  induction l with
  | nil => intro acc n c hc _; cases hc
  | cons a rest ih =>
    intro acc n c hc hf
    simp only [List.foldl_cons] at hf
    rcases List.mem_cons.mp hc with h | h
    · subst h
      cases hd : digit c with
      | some d => exact ⟨d, rfl⟩
      | none =>
        have hstep : radixStep base digit acc c = none := by
          unfold radixStep
          rw [hd]
          cases acc <;> rfl
        rw [hstep, radixStep_foldl_none] at hf
        cases hf
    · exact ih _ n c h hf

theorem parseRadix_no_pipe (base : Nat) (digit : Char → Option Nat)
    (l : List Char) (n : Nat) (h : parseRadix base digit l = some n)
    (hd : digit '|' = none) : ('|' : Char) ∉ l := by
  intro hm
  unfold parseRadix at h
  by_cases he : l.isEmpty = true
  · rw [if_pos he] at h; cases h
  · rw [if_neg he] at h
    obtain ⟨d, hd'⟩ := radixStep_digit_some base digit l (some 0) n '|' hm h
    rw [hd] at hd'
    cases hd'

set_option maxHeartbeats 1000000 in
theorem parseBigInt_no_pipe (s : List Char) (q : Int)
    (h : parseBigInt s = some q) : ('|' : Char) ∉ s := by
  intro hmem
  have htr : ('|' : Char) ∈ trimChars s :=
    mem_trimChars '|' (by decide) s hmem
  unfold parseBigInt at h
  split at h <;>
    first
      | (rename_i heq
         rw [heq] at htr
         cases htr
         done)
      | (rename_i rest heq
         rw [heq] at htr
         rcases Option.map_eq_some'.mp h with ⟨n, hn, _⟩
         rcases List.mem_cons.mp htr with h1 | h1
         · exact absurd h1 (by decide)
         · rcases List.mem_cons.mp h1 with h2 | h2
           · exact absurd h2 (by decide)
           · exact absurd h2 (parseRadix_no_pipe _ _ _ _ hn (by decide))
         done)
      | (rename_i rest heq
         rw [heq] at htr
         rcases Option.map_eq_some'.mp h with ⟨n, hn, _⟩
         rcases List.mem_cons.mp htr with h1 | h1
         · exact absurd h1 (by decide)
         · exact absurd h1 (parseRadix_no_pipe _ _ _ _ hn (by decide))
         done)
      | (rcases Option.map_eq_some'.mp h with ⟨n, hn, _⟩
         exact absurd htr (parseRadix_no_pipe _ _ _ _ hn (by decide)))

/-! ## Cache keys determine the parsed request parameters -/

theorem append_pipe_cancel :
    ∀ (a1 a2 r1 r2 : List Char), ('|' : Char) ∉ a1 → ('|' : Char) ∉ a2 →
      a1 ++ '|' :: r1 = a2 ++ '|' :: r2 → a1 = a2 ∧ r1 = r2 := by
  intro a1
  induction a1 with
  | nil =>
    intro a2 r1 r2 h1 h2 heq
    cases a2 with
    | nil =>
      simp only [List.nil_append] at heq
      injection heq with _ hr
      exact ⟨rfl, hr⟩
    | cons b bs =>
      simp only [List.nil_append, List.cons_append] at heq
      injection heq with hb _
      exact absurd (hb ▸ List.mem_cons_self b bs) h2
  | cons a as ih =>
    intro a2 r1 r2 h1 h2 heq
    cases a2 with
    | nil =>
      simp only [List.nil_append, List.cons_append] at heq
      injection heq with hb _
      exact absurd (hb ▸ List.mem_cons_self a as) h1
    | cons b bs =>
      simp only [List.cons_append] at heq
      injection heq with hb hrest
      obtain ⟨h3, h4⟩ := ih bs r1 r2
        (fun hm => h1 (List.mem_cons_of_mem _ hm))
        (fun hm => h2 (List.mem_cons_of_mem _ hm)) hrest
      exact ⟨by rw [hb, h3], h4⟩

theorem rewardsKey_lower_eq {r1 r2 : List Char}
    (h : rewardsKey r1 = rewardsKey r2) :
    r1.map jsToLower = r2.map jsToLower := by
  unfold rewardsKey at h
  exact List.append_cancel_left h

theorem earnedKey_parts (r1 s1 r2 s2 : List Char)
    (hp2r : ('|' : Char) ∉ r2.map jsToLower) (hp2s : ('|' : Char) ∉ s2)
    (h : earnedKey r1 s1 = earnedKey r2 s2) :
    r1.map jsToLower = r2.map jsToLower ∧ s1 = s2 := by
  unfold earnedKey at h
  have hassoc : ∀ (x y : List Char),
      "addresses:".toList ++ x ++ "|since:".toList ++ y
        = ("addresses:".toList ++ x) ++ '|' :: ("since:".toList ++ y) := by
    intro x y
    rw [List.append_assoc ("addresses:".toList ++ x)]
    rfl
  rw [hassoc, hassoc] at h
  have hcnt := congrArg (List.count '|') h
  simp only [List.count_append, List.count_cons] at hcnt
  have hA : List.count '|' "addresses:".toList = 0 := by decide
  have hS : List.count '|' "since:".toList = 0 := by decide
  have h2r : List.count '|' (r2.map jsToLower) = 0 :=
    List.count_eq_zero.mpr hp2r
  have h2s : List.count '|' s2 = 0 := List.count_eq_zero.mpr hp2s
  rw [hA, hS, h2r, h2s] at hcnt
  simp at hcnt
  have hp1r : ('|' : Char) ∉ r1.map jsToLower :=
    List.count_eq_zero.mp (by omega)
  have hp1s : ('|' : Char) ∉ s1 := List.count_eq_zero.mp (by omega)
  have hnp1 : ('|' : Char) ∉ "addresses:".toList ++ r1.map jsToLower := by
    intro hm
    rcases List.mem_append.mp hm with hm | hm
    · exact absurd hm (by decide)
    · exact absurd hm hp1r
  have hnp2 : ('|' : Char) ∉ "addresses:".toList ++ r2.map jsToLower := by
    intro hm
    rcases List.mem_append.mp hm with hm | hm
    · exact absurd hm (by decide)
    · exact absurd hm hp2r
  obtain ⟨hpre, hsuf⟩ := append_pipe_cancel _ _ _ _ hnp1 hnp2 h
  exact ⟨List.append_cancel_left hpre, List.append_cancel_left hsuf⟩

theorem cacheGet_mem {α : Type} (c : Cache α) (k : List Char) (ts : Int)
    (p : α) (h : cacheGet c k = some (ts, p)) : (k, ts, p) ∈ c := by
  unfold cacheGet at h
  rcases Option.map_eq_some'.mp h with ⟨e, he, hmap⟩
  have hmem := List.mem_of_find?_eq_some he
  have hk' := List.find?_some he
  have hk : e.1 = k := of_decide_eq_true hk'
  obtain ⟨k', v⟩ := e
  simp only at hmap hk
  subst hk
  subst hmap
  exact hmem

/-! ## Reduction lemmas for the GET handlers -/

theorem handleRewardsCore_missing (cache : Cache RewardsPayload)
    (nowMs : Int) (raw : List Char) (up : RewardsUpstream)
    (h : (toAddressList raw).isEmpty = true) :
    handleRewardsCore cache nowMs raw up
      = (.err 400 "Missing addresses", cache, 0) := by
  simp [handleRewardsCore, h]

theorem handleRewardsCore_invalid (cache : Cache RewardsPayload)
    (nowMs : Int) (raw : List Char) (up : RewardsUpstream)
    (h1 : (toAddressList raw).isEmpty = false)
    (h2 : (toAddressList raw).all isHexAddress = false) :
    handleRewardsCore cache nowMs raw up
      = (.err 400 "Invalid address", cache, 0) := by
  simp [handleRewardsCore, h1, h2]

theorem handleRewardsCore_success (cache : Cache RewardsPayload)
    (nowMs : Int) (raw : List Char) (up : RewardsUpstream)
    (h1 : (toAddressList raw).isEmpty = false)
    (h2 : (toAddressList raw).all isHexAddress = true) :
    handleRewardsCore cache nowMs raw up
      = (.ok ⟨toAddressList raw,
          ((toAddressList raw).map
            (fun a => rewardsForAddress up a (nowMs.fdiv 1000))).map Prod.fst,
          nowMs⟩,
        cacheSet cache (rewardsKey raw) nowMs
          ⟨toAddressList raw,
            ((toAddressList raw).map
              (fun a => rewardsForAddress up a (nowMs.fdiv 1000))).map
                Prod.fst, nowMs⟩,
        (((toAddressList raw).map
          (fun a => rewardsForAddress up a (nowMs.fdiv 1000))).map
            (fun pr => 2 + pr.2)).sum) := by
  simp [handleRewardsCore, h1, h2]

theorem handleRewards_miss (cache : Cache RewardsPayload) (nowMs : Int)
    (raw : List Char) (up : RewardsUpstream)
    (h : cacheGet cache (rewardsKey raw) = none) :
    handleRewards cache nowMs raw up
      = handleRewardsCore cache nowMs raw up := by
  simp [handleRewards, h]

theorem handleRewards_hit (cache : Cache RewardsPayload) (nowMs : Int)
    (raw : List Char) (up : RewardsUpstream) (ts : Int)
    (p : RewardsPayload)
    (h : cacheGet cache (rewardsKey raw) = some (ts, p))
    (hfresh : nowMs - ts < 45000) :
    handleRewards cache nowMs raw up = (.ok p, cache, 0) := by
  simp [handleRewards, h, hfresh]

theorem handleRewards_stale (cache : Cache RewardsPayload) (nowMs : Int)
    (raw : List Char) (up : RewardsUpstream) (ts : Int)
    (p : RewardsPayload)
    (h : cacheGet cache (rewardsKey raw) = some (ts, p))
    (hstale : ¬ nowMs - ts < 45000) :
    handleRewards cache nowMs raw up
      = handleRewardsCore cache nowMs raw up := by
  simp [handleRewards, h, hstale]

theorem handleEarnedCore_missing (cache : Cache EarnedPayload)
    (nowMs : Int) (raw sinceRaw : List Char)
    (feed : List Char → Nat → TxPage)
    (h : (toAddressList raw).isEmpty = true) :
    handleEarnedCore cache nowMs raw sinceRaw feed
      = (.err 400 "Missing addresses", cache, 0) := by
  simp [handleEarnedCore, h]

theorem handleEarnedCore_invalid (cache : Cache EarnedPayload)
    (nowMs : Int) (raw sinceRaw : List Char)
    (feed : List Char → Nat → TxPage)
    (h1 : (toAddressList raw).isEmpty = false)
    (h2 : (toAddressList raw).all isHexAddress = false) :
    handleEarnedCore cache nowMs raw sinceRaw feed
      = (.err 400 "Invalid address", cache, 0) := by
  simp [handleEarnedCore, h1, h2]

theorem handleEarnedCore_since_none (cache : Cache EarnedPayload)
    (nowMs : Int) (raw sinceRaw : List Char)
    (feed : List Char → Nat → TxPage)
    (h1 : (toAddressList raw).isEmpty = false)
    (h2 : (toAddressList raw).all isHexAddress = true)
    (h3 : parseJsNumberInt sinceRaw = none) :
    handleEarnedCore cache nowMs raw sinceRaw feed
      = (.err 400 "Invalid since", cache, 0) := by
  simp [handleEarnedCore, h1, h2, h3]

theorem handleEarnedCore_since_nonpos (cache : Cache EarnedPayload)
    (nowMs : Int) (raw sinceRaw : List Char)
    (feed : List Char → Nat → TxPage) (q : Int)
    (h1 : (toAddressList raw).isEmpty = false)
    (h2 : (toAddressList raw).all isHexAddress = true)
    (h3 : parseJsNumberInt sinceRaw = some q) (h4 : q ≤ 0) :
    handleEarnedCore cache nowMs raw sinceRaw feed
      = (.err 400 "Invalid since", cache, 0) := by
  simp [handleEarnedCore, h1, h2, h3, h4]

theorem handleEarnedCore_success (cache : Cache EarnedPayload)
    (nowMs : Int) (raw sinceRaw : List Char)
    (feed : List Char → Nat → TxPage) (q : Int)
    (h1 : (toAddressList raw).isEmpty = false)
    (h2 : (toAddressList raw).all isHexAddress = true)
    (h3 : parseJsNumberInt sinceRaw = some q) (h4 : ¬ q ≤ 0) :
    handleEarnedCore cache nowMs raw sinceRaw feed
      = (.ok ⟨q, toAddressList raw,
          (toAddressList raw).map (fun a => earnedForAddress (feed a) a q),
          nowMs⟩,
        cacheSet cache (earnedKey raw sinceRaw) nowMs
          ⟨q, toAddressList raw,
            (toAddressList raw).map (fun a => earnedForAddress (feed a) a q),
            nowMs⟩,
        (((toAddressList raw).map
          (fun a => earnedForAddress (feed a) a q)).map
            EarnedResult.pagesFetched).sum) := by
  simp [handleEarnedCore, h1, h2, h3, h4]

theorem handleEarned_miss (cache : Cache EarnedPayload) (nowMs : Int)
    (raw sinceRaw : List Char) (feed : List Char → Nat → TxPage)
    (h : cacheGet cache (earnedKey raw sinceRaw) = none) :
    handleEarned cache nowMs raw sinceRaw feed
      = handleEarnedCore cache nowMs raw sinceRaw feed := by
  simp [handleEarned, h]

theorem handleEarned_hit (cache : Cache EarnedPayload) (nowMs : Int)
    (raw sinceRaw : List Char) (feed : List Char → Nat → TxPage)
    (ts : Int) (p : EarnedPayload)
    (h : cacheGet cache (earnedKey raw sinceRaw) = some (ts, p))
    (hfresh : nowMs - ts < 120000) :
    handleEarned cache nowMs raw sinceRaw feed = (.ok p, cache, 0) := by
  simp [handleEarned, h, hfresh]

theorem handleEarned_stale (cache : Cache EarnedPayload) (nowMs : Int)
    (raw sinceRaw : List Char) (feed : List Char → Nat → TxPage)
    (ts : Int) (p : EarnedPayload)
    (h : cacheGet cache (earnedKey raw sinceRaw) = some (ts, p))
    (hstale : ¬ nowMs - ts < 120000) :
    handleEarned cache nowMs raw sinceRaw feed
      = handleEarnedCore cache nowMs raw sinceRaw feed := by
  simp [handleEarned, h, hstale]

/-! ## Cache well-formedness: established empty, preserved by handlers -/

theorem rewardsCacheOK_empty : RewardsCacheOK [] :=
  fun e he => absurd he (List.not_mem_nil e)

theorem earnedCacheOK_empty : EarnedCacheOK [] :=
  fun e he => absurd he (List.not_mem_nil e)

theorem rewardsCacheOK_core (cache : Cache RewardsPayload) (nowMs : Int)
    (raw : List Char) (up : RewardsUpstream) (h : RewardsCacheOK cache) :
    RewardsCacheOK (handleRewardsCore cache nowMs raw up).2.1 := by
  cases h1 : (toAddressList raw).isEmpty with
  | true => rw [handleRewardsCore_missing _ _ _ _ h1]; exact h
  | false =>
    cases h2 : (toAddressList raw).all isHexAddress with
    | false => rw [handleRewardsCore_invalid _ _ _ _ h1 h2]; exact h
    | true =>
      rw [handleRewardsCore_success _ _ _ _ h1 h2]
      intro e he
      rcases List.mem_cons.mp he with he | he
      · exact ⟨raw, by rw [he], by simp [ValidAddrRaw, h1], h2⟩
      · exact h e he

theorem rewardsCacheOK_preserved (cache : Cache RewardsPayload)
    (nowMs : Int) (raw : List Char) (up : RewardsUpstream)
    (h : RewardsCacheOK cache) :
    RewardsCacheOK (handleRewards cache nowMs raw up).2.1 := by
  cases hget : cacheGet cache (rewardsKey raw) with
  | some e =>
    obtain ⟨ts, p⟩ := e
    by_cases hf : nowMs - ts < 45000
    · rw [handleRewards_hit _ _ _ _ _ _ hget hf]; exact h
    · rw [handleRewards_stale _ _ _ _ _ _ hget hf]
      exact rewardsCacheOK_core _ _ _ _ h
  | none =>
    rw [handleRewards_miss _ _ _ _ hget]
    exact rewardsCacheOK_core _ _ _ _ h

theorem earnedCacheOK_core (cache : Cache EarnedPayload) (nowMs : Int)
    (raw sinceRaw : List Char) (feed : List Char → Nat → TxPage)
    (h : EarnedCacheOK cache) :
    EarnedCacheOK (handleEarnedCore cache nowMs raw sinceRaw feed).2.1 := by
  cases h1 : (toAddressList raw).isEmpty with
  | true => rw [handleEarnedCore_missing _ _ _ _ _ h1]; exact h
  | false =>
    cases h2 : (toAddressList raw).all isHexAddress with
    | false => rw [handleEarnedCore_invalid _ _ _ _ _ h1 h2]; exact h
    | true =>
      cases h3 : parseJsNumberInt sinceRaw with
      | none => rw [handleEarnedCore_since_none _ _ _ _ _ h1 h2 h3]; exact h
      | some q =>
        by_cases h4 : q ≤ 0
        · rw [handleEarnedCore_since_nonpos _ _ _ _ _ _ h1 h2 h3 h4]; exact h
        · rw [handleEarnedCore_success _ _ _ _ _ _ h1 h2 h3 h4]
          intro e he
          rcases List.mem_cons.mp he with he | he
          · exact ⟨raw, sinceRaw, by rw [he],
              ⟨by simp [h1], h2⟩, q, h3, by omega⟩
          · exact h e he

theorem earnedCacheOK_preserved (cache : Cache EarnedPayload)
    (nowMs : Int) (raw sinceRaw : List Char)
    (feed : List Char → Nat → TxPage) (h : EarnedCacheOK cache) :
    EarnedCacheOK (handleEarned cache nowMs raw sinceRaw feed).2.1 := by
  cases hget : cacheGet cache (earnedKey raw sinceRaw) with
  | some e =>
    obtain ⟨ts, p⟩ := e
    by_cases hf : nowMs - ts < 120000
    · rw [handleEarned_hit _ _ _ _ _ _ _ hget hf]; exact h
    · rw [handleEarned_stale _ _ _ _ _ _ _ hget hf]
      exact earnedCacheOK_core _ _ _ _ _ h
  | none =>
    rw [handleEarned_miss _ _ _ _ _ hget]
    exact earnedCacheOK_core _ _ _ _ _ h

/-- On a well-formed cache, a request whose address list fails
validation can never score a fresh cache hit (rewards endpoint). -/
theorem rewards_invalid_no_hit (cache : Cache RewardsPayload)
    (raw : List Char) (hok : RewardsCacheOK cache)
    (hnv : ¬ ValidAddrRaw raw) :
    cacheGet cache (rewardsKey raw) = none := by
  cases hget : cacheGet cache (rewardsKey raw) with
  | none => rfl
  | some e =>
    obtain ⟨ts, p⟩ := e
    have hmem := cacheGet_mem _ _ _ _ hget
    obtain ⟨raw0, hkey, hval⟩ := hok _ hmem
    simp only at hkey
    have hlow := rewardsKey_lower_eq hkey
    have hparse : toAddressList raw = toAddressList raw0 := by
      rw [← toAddressList_map_lower raw, hlow, toAddressList_map_lower]
    exact absurd (by unfold ValidAddrRaw; rw [hparse]; exact hval) hnv

/-- Likewise for the earned endpoint. -/
theorem earned_invalid_no_hit (cache : Cache EarnedPayload)
    (raw sinceRaw : List Char) (hok : EarnedCacheOK cache)
    (hnv : ¬ ValidAddrRaw raw) :
    cacheGet cache (earnedKey raw sinceRaw) = none := by
  cases hget : cacheGet cache (earnedKey raw sinceRaw) with
  | none => rfl
  | some e =>
    obtain ⟨ts, p⟩ := e
    have hmem := cacheGet_mem _ _ _ _ hget
    obtain ⟨raw0, since0, hkey, hval0, q, hq, hqpos⟩ := hok _ hmem
    simp only at hkey
    have hq' : parseBigInt since0 = some q := hq
    have hp0r := pipe_not_of_valid raw0 hval0
    have hp0s : ('|' : Char) ∉ since0 := parseBigInt_no_pipe since0 q hq'
    obtain ⟨hlow, _⟩ := earnedKey_parts raw sinceRaw raw0 since0 hp0r hp0s
      hkey
    have hparse : toAddressList raw = toAddressList raw0 := by
      rw [← toAddressList_map_lower raw, hlow, toAddressList_map_lower]
    exact absurd (by unfold ValidAddrRaw; rw [hparse]; exact hval0) hnv

/-- C6: on any reachable (well-formed) cache state, both endpoints
answer `400` with error `Missing addresses` when the parsed address list
is empty, and `400` with error `Invalid address` when any parsed entry
fails the `^0x[0-9a-f]{40}$` shape — all-or-nothing over the batch —
leaving the cache unchanged and making zero upstream calls in either
case. -/
theorem batch_validation_400 :
    (∀ (cache : Cache RewardsPayload) (nowMs : Int) (raw : List Char)
        (up : RewardsUpstream), RewardsCacheOK cache →
      (((toAddressList raw).isEmpty = true →
        handleRewards cache nowMs raw up
          = (.err 400 "Missing addresses", cache, 0))
      ∧ ((∃ a ∈ toAddressList raw, isHexAddress a = false) →
        handleRewards cache nowMs raw up
          = (.err 400 "Invalid address", cache, 0))))
    ∧ (∀ (cache : Cache EarnedPayload) (nowMs : Int)
        (raw sinceRaw : List Char) (feed : List Char → Nat → TxPage),
        EarnedCacheOK cache →
      (((toAddressList raw).isEmpty = true →
        handleEarned cache nowMs raw sinceRaw feed
          = (.err 400 "Missing addresses", cache, 0))
      ∧ ((∃ a ∈ toAddressList raw, isHexAddress a = false) →
        handleEarned cache nowMs raw sinceRaw feed
          = (.err 400 "Invalid address", cache, 0)))) := by
  constructor
  · intro cache nowMs raw up hok
    constructor
    · intro hempty
      have hnv : ¬ ValidAddrRaw raw := fun hv => hv.1 hempty
      rw [handleRewards_miss _ _ _ _ (rewards_invalid_no_hit _ _ hok hnv),
        handleRewardsCore_missing _ _ _ _ hempty]
    · rintro ⟨a, ha, hinv⟩
      have hne : (toAddressList raw).isEmpty = false := by
        cases hh : toAddressList raw with
        | nil => rw [hh] at ha; cases ha
        | cons x xs => rfl
      have hall : (toAddressList raw).all isHexAddress = false := by
        cases hall' : (toAddressList raw).all isHexAddress with
        | false => rfl
        | true =>
          have := (List.all_eq_true.mp hall') a ha
          rw [hinv] at this
          cases this
      have hnv : ¬ ValidAddrRaw raw := fun hv => by
        rw [hv.2] at hall; cases hall
      rw [handleRewards_miss _ _ _ _ (rewards_invalid_no_hit _ _ hok hnv),
        handleRewardsCore_invalid _ _ _ _ hne hall]
  · intro cache nowMs raw sinceRaw feed hok
    constructor
    · intro hempty
      have hnv : ¬ ValidAddrRaw raw := fun hv => hv.1 hempty
      rw [handleEarned_miss _ _ _ _ _
          (earned_invalid_no_hit _ _ _ hok hnv),
        handleEarnedCore_missing _ _ _ _ _ hempty]
    · rintro ⟨a, ha, hinv⟩
      have hne : (toAddressList raw).isEmpty = false := by
        cases hh : toAddressList raw with
        | nil => rw [hh] at ha; cases ha
        | cons x xs => rfl
      have hall : (toAddressList raw).all isHexAddress = false := by
        cases hall' : (toAddressList raw).all isHexAddress with
        | false => rfl
        | true =>
          have := (List.all_eq_true.mp hall') a ha
          rw [hinv] at this
          cases this
      have hnv : ¬ ValidAddrRaw raw := fun hv => by
        rw [hv.2] at hall; cases hall
      rw [handleEarned_miss _ _ _ _ _
          (earned_invalid_no_hit _ _ _ hok hnv),
        handleEarnedCore_invalid _ _ _ _ _ hne hall]

/-- Witness for C6: on the empty cache, `",,"` parses to an empty list
(`400 Missing addresses` from the rewards endpoint) and `"0xZZ"` parses
to one malformed entry (`400 Invalid address` from the earned endpoint);
both leave the cache empty and make no upstream call. -/
theorem batch_validation_400_witness :
    handleRewards [] 0 ",,".toList wNoUp
      = (.err 400 "Missing addresses", [], 0)
    ∧ handleEarned [] 0 "0xZZ".toList "5".toList
        (fun _ _ => ⟨[], none, none⟩)
      = (.err 400 "Invalid address", [], 0) :=
  ⟨(batch_validation_400.1 [] 0 ",,".toList wNoUp rewardsCacheOK_empty).1
      (by decide),
   (batch_validation_400.2 [] 0 "0xZZ".toList "5".toList
      (fun _ _ => ⟨[], none, none⟩) earnedCacheOK_empty).2
      ⟨"0xzz".toList, by decide, by decide⟩⟩

/-! ## Zero-to-null normalisation (C7) -/

theorem zeroToNull_eq_none (n : Int) : zeroToNull n = none ↔ n = 0 := by
  unfold zeroToNull
  by_cases h : n = 0 <;> simp [h]

theorem zeroToNull_eq_some (n : Int) (h : n ≠ 0) : zeroToNull n = some n := by
  unfold zeroToNull
  simp [h]

/-- C7: in every per-address result, `stakedTheta`, `rewards7d` and
`rewards30d` (rewards endpoint) and `earned` (earned endpoint) are
`null` exactly when the corresponding accumulated sum is zero, and carry
the sum itself otherwise. -/
theorem zero_sums_null :
    (∀ (up : RewardsUpstream) (address : List Char) (nowSec : Int),
      ((rewardsForAddress up address nowSec).1.stakedTheta = none
        ↔ stakedSum up address = 0)
      ∧ (stakedSum up address ≠ 0 →
        (rewardsForAddress up address nowSec).1.stakedTheta
          = some (stakedSum up address))
      ∧ ((rewardsForAddress up address nowSec).1.rewards7d = none
        ↔ (rewardsWalk (up.feed address) address nowSec).1.rewards7d = 0)
      ∧ ((rewardsWalk (up.feed address) address nowSec).1.rewards7d ≠ 0 →
        (rewardsForAddress up address nowSec).1.rewards7d
          = some ((rewardsWalk (up.feed address) address nowSec).1.rewards7d))
      ∧ ((rewardsForAddress up address nowSec).1.rewards30d = none
        ↔ (rewardsWalk (up.feed address) address nowSec).1.rewards30d = 0)
      ∧ ((rewardsWalk (up.feed address) address nowSec).1.rewards30d ≠ 0 →
        (rewardsForAddress up address nowSec).1.rewards30d
          = some ((rewardsWalk (up.feed address) address
              nowSec).1.rewards30d)))
    ∧ (∀ (feed : Nat → TxPage) (address : List Char) (sinceSec : Int),
      ((earnedForAddress feed address sinceSec).earned = none
        ↔ (earnedWalk feed address sinceSec).total = 0)
      ∧ ((earnedWalk feed address sinceSec).total ≠ 0 →
        (earnedForAddress feed address sinceSec).earned
          = some (earnedWalk feed address sinceSec).total)) := by
  constructor
  · intro up address nowSec
    have h1 : (rewardsForAddress up address nowSec).1.stakedTheta
        = zeroToNull (stakedSum up address) := rfl
    have h2 : (rewardsForAddress up address nowSec).1.rewards7d
        = zeroToNull (rewardsWalk (up.feed address) address
            nowSec).1.rewards7d := rfl
    have h3 : (rewardsForAddress up address nowSec).1.rewards30d
        = zeroToNull (rewardsWalk (up.feed address) address
            nowSec).1.rewards30d := rfl
    rw [h1, h2, h3]
    exact ⟨zeroToNull_eq_none _, zeroToNull_eq_some _,
      zeroToNull_eq_none _, zeroToNull_eq_some _,
      zeroToNull_eq_none _, zeroToNull_eq_some _⟩
  · intro feed address sinceSec
    have h1 : (earnedForAddress feed address sinceSec).earned
        = zeroToNull (earnedWalk feed address sinceSec).total := rfl
    rw [h1]
    exact ⟨zeroToNull_eq_none _, zeroToNull_eq_some _⟩

/-- Witness for C7: a non-zero staked sum is passed through, and the
empty upstream yields a zero earned total, normalised to null. -/
theorem zero_sums_null_witness :
    (rewardsForAddress wUp wAddr 1000000).1.stakedTheta
      = some (stakedSum wUp wAddr)
    ∧ (earnedForAddress (wNoUp.feed wAddr) wAddr 500).earned = none :=
  ⟨(zero_sums_null.1 wUp wAddr 1000000).2.1 (by decide),
   ((zero_sums_null.2 (wNoUp.feed wAddr) wAddr 500).1).mpr (by decide)⟩

/-! ## Cache TTL behaviour (C8) -/

/-- C8: each endpoint serves a stored payload for its request key
exactly when `now - timestamp_written < TTL` (45 s for rewards, 120 s
for earned); otherwise (stale entry or miss), on a valid request, the
response is recomputed and the fresh payload is stored under the key
built from the lowercased address list (plus the raw `since` value for
the earned endpoint). -/
theorem cache_ttl_serving :
    (∀ (cache : Cache RewardsPayload) (nowMs : Int) (raw : List Char)
        (up : RewardsUpstream) (ts : Int) (p : RewardsPayload),
      cacheGet cache (rewardsKey raw) = some (ts, p) →
      nowMs - ts < 45000 →
      handleRewards cache nowMs raw up = (.ok p, cache, 0))
    ∧ (∀ (cache : Cache RewardsPayload) (nowMs : Int) (raw : List Char)
        (up : RewardsUpstream),
      (cacheGet cache (rewardsKey raw) = none ∨
        ∃ ts p, cacheGet cache (rewardsKey raw) = some (ts, p) ∧
          ¬ nowMs - ts < 45000) →
      ValidAddrRaw raw →
      ∃ payload calls, handleRewards cache nowMs raw up
        = (.ok payload,
           cacheSet cache (rewardsKey raw) nowMs payload, calls))
    ∧ (∀ (cache : Cache EarnedPayload) (nowMs : Int)
        (raw sinceRaw : List Char) (feed : List Char → Nat → TxPage)
        (ts : Int) (p : EarnedPayload),
      cacheGet cache (earnedKey raw sinceRaw) = some (ts, p) →
      nowMs - ts < 120000 →
      handleEarned cache nowMs raw sinceRaw feed = (.ok p, cache, 0))
    ∧ (∀ (cache : Cache EarnedPayload) (nowMs : Int)
        (raw sinceRaw : List Char) (feed : List Char → Nat → TxPage)
        (q : Int),
      (cacheGet cache (earnedKey raw sinceRaw) = none ∨
        ∃ ts p, cacheGet cache (earnedKey raw sinceRaw) = some (ts, p) ∧
          ¬ nowMs - ts < 120000) →
      ValidAddrRaw raw →
      parseJsNumberInt sinceRaw = some q → 0 < q →
      ∃ payload calls, handleEarned cache nowMs raw sinceRaw feed
        = (.ok payload,
           cacheSet cache (earnedKey raw sinceRaw) nowMs payload,
           calls)) := by
  refine ⟨?_, ?_, ?_, ?_⟩
  · intro cache nowMs raw up ts p hget hfresh
    exact handleRewards_hit _ _ _ _ _ _ hget hfresh
  · intro cache nowMs raw up hmiss hv
    have hne : (toAddressList raw).isEmpty = false := by
      cases hh : (toAddressList raw).isEmpty with
      | false => rfl
      | true => exact absurd hh hv.1
    have hcore := handleRewardsCore_success cache nowMs raw up hne hv.2
    rcases hmiss with hmiss | ⟨ts, p, hget, hstale⟩
    · rw [handleRewards_miss _ _ _ _ hmiss, hcore]
      exact ⟨_, _, rfl⟩
    · rw [handleRewards_stale _ _ _ _ _ _ hget hstale, hcore]
      exact ⟨_, _, rfl⟩
  · intro cache nowMs raw sinceRaw feed ts p hget hfresh
    exact handleEarned_hit _ _ _ _ _ _ _ hget hfresh
  · intro cache nowMs raw sinceRaw feed q hmiss hv hq hqpos
    have hne : (toAddressList raw).isEmpty = false := by
      cases hh : (toAddressList raw).isEmpty with
      | false => rfl
      | true => exact absurd hh hv.1
    have hcore := handleEarnedCore_success cache nowMs raw sinceRaw feed q
      hne hv.2 hq (by omega)
    rcases hmiss with hmiss | ⟨ts, p, hget, hstale⟩
    · rw [handleEarned_miss _ _ _ _ _ hmiss, hcore]
      exact ⟨_, _, rfl⟩
    · rw [handleEarned_stale _ _ _ _ _ _ _ hget hstale, hcore]
      exact ⟨_, _, rfl⟩

/-- Witness for C8: a fresh entry written at `t = 100` is served at
`t = 1000`; on the empty cache a valid request recomputes and stores. -/
theorem cache_ttl_serving_witness :
    handleRewards (cacheSet [] (rewardsKey wAddr) 100 ⟨[], [], 0⟩) 1000
        wAddr wNoUp
      = (.ok ⟨[], [], 0⟩, cacheSet [] (rewardsKey wAddr) 100 ⟨[], [], 0⟩, 0)
    ∧ ∃ payload calls,
        handleEarned [] 5 wAddr "7".toList (fun _ _ => ⟨[], none, none⟩)
          = (.ok payload,
             cacheSet [] (earnedKey wAddr "7".toList) 5 payload, calls) :=
  ⟨cache_ttl_serving.1 (cacheSet [] (rewardsKey wAddr) 100 ⟨[], [], 0⟩)
      1000 wAddr wNoUp 100 ⟨[], [], 0⟩ (by decide) (by decide),
   cache_ttl_serving.2.2.2 [] 5 wAddr "7".toList
      (fun _ _ => ⟨[], none, none⟩) 7 (Or.inl (by decide)) (by decide)
      (by decide) (by decide)⟩

/-! ## Failed requests never touch the cache (C10) -/

/-- C10: a request that fails validation (empty address list, malformed
address, or — for the earned endpoint — a non-finite or non-positive
`since`) leaves the response cache unchanged; and whenever a handler
changes the cache at all, the response is a successfully computed `ok`
payload and the change is exactly storing that payload under the request
key — so 400 responses are never written and a later valid request can
never be served a cached error. -/
theorem errors_never_cached :
    (∀ (cache : Cache RewardsPayload) (nowMs : Int) (raw : List Char)
        (up : RewardsUpstream),
      ((toAddressList raw).isEmpty = true ∨
        (toAddressList raw).all isHexAddress = false) →
      (handleRewards cache nowMs raw up).2.1 = cache)
    ∧ (∀ (cache : Cache RewardsPayload) (nowMs : Int) (raw : List Char)
        (up : RewardsUpstream),
      (handleRewards cache nowMs raw up).2.1 ≠ cache →
      ∃ payload, (handleRewards cache nowMs raw up).1 = .ok payload ∧
        (handleRewards cache nowMs raw up).2.1
          = cacheSet cache (rewardsKey raw) nowMs payload)
    ∧ (∀ (cache : Cache EarnedPayload) (nowMs : Int)
        (raw sinceRaw : List Char) (feed : List Char → Nat → TxPage),
      ((toAddressList raw).isEmpty = true ∨
        (toAddressList raw).all isHexAddress = false ∨
        parseJsNumberInt sinceRaw = none ∨
        (∃ q, parseJsNumberInt sinceRaw = some q ∧ q ≤ 0)) →
      (handleEarned cache nowMs raw sinceRaw feed).2.1 = cache)
    ∧ (∀ (cache : Cache EarnedPayload) (nowMs : Int)
        (raw sinceRaw : List Char) (feed : List Char → Nat → TxPage),
      (handleEarned cache nowMs raw sinceRaw feed).2.1 ≠ cache →
      ∃ payload, (handleEarned cache nowMs raw sinceRaw feed).1
          = .ok payload ∧
        (handleEarned cache nowMs raw sinceRaw feed).2.1
          = cacheSet cache (earnedKey raw sinceRaw) nowMs payload) := by
  have hrewCore : ∀ (cache : Cache RewardsPayload) (nowMs : Int)
      (raw : List Char) (up : RewardsUpstream),
      ((toAddressList raw).isEmpty = true ∨
        (toAddressList raw).all isHexAddress = false) →
      (handleRewardsCore cache nowMs raw up).2.1 = cache := by
    intro cache nowMs raw up hbad
    rcases hbad with hbad | hbad
    · rw [handleRewardsCore_missing _ _ _ _ hbad]
    · cases hne : (toAddressList raw).isEmpty with
      | true => rw [handleRewardsCore_missing _ _ _ _ hne]
      | false => rw [handleRewardsCore_invalid _ _ _ _ hne hbad]
  have hearnCore : ∀ (cache : Cache EarnedPayload) (nowMs : Int)
      (raw sinceRaw : List Char) (feed : List Char → Nat → TxPage),
      ((toAddressList raw).isEmpty = true ∨
        (toAddressList raw).all isHexAddress = false ∨
        parseJsNumberInt sinceRaw = none ∨
        (∃ q, parseJsNumberInt sinceRaw = some q ∧ q ≤ 0)) →
      (handleEarnedCore cache nowMs raw sinceRaw feed).2.1 = cache := by
    intro cache nowMs raw sinceRaw feed hbad
    cases hne : (toAddressList raw).isEmpty with
    | true => rw [handleEarnedCore_missing _ _ _ _ _ hne]
    | false =>
      rcases hbad with hbad | hbad | hbad | ⟨q, hq, hqle⟩
      · rw [hbad] at hne; cases hne
      · rw [handleEarnedCore_invalid _ _ _ _ _ hne hbad]
      · cases hall : (toAddressList raw).all isHexAddress with
        | false => rw [handleEarnedCore_invalid _ _ _ _ _ hne hall]
        | true => rw [handleEarnedCore_since_none _ _ _ _ _ hne hall hbad]
      · cases hall : (toAddressList raw).all isHexAddress with
        | false => rw [handleEarnedCore_invalid _ _ _ _ _ hne hall]
        | true =>
          rw [handleEarnedCore_since_nonpos _ _ _ _ _ _ hne hall hq hqle]
  refine ⟨?_, ?_, ?_, ?_⟩
  · intro cache nowMs raw up hbad
    cases hget : cacheGet cache (rewardsKey raw) with
    | some e =>
      obtain ⟨ts, p⟩ := e
      by_cases hf : nowMs - ts < 45000
      · rw [handleRewards_hit _ _ _ _ _ _ hget hf]
      · rw [handleRewards_stale _ _ _ _ _ _ hget hf]
        exact hrewCore _ _ _ _ hbad
    | none =>
      rw [handleRewards_miss _ _ _ _ hget]
      exact hrewCore _ _ _ _ hbad
  · intro cache nowMs raw up hchg
    have hcore : ∀ (hrun : handleRewards cache nowMs raw up
          = handleRewardsCore cache nowMs raw up),
        ∃ payload, (handleRewards cache nowMs raw up).1 = .ok payload ∧
          (handleRewards cache nowMs raw up).2.1
            = cacheSet cache (rewardsKey raw) nowMs payload := by
      intro hrun
      rw [hrun] at hchg ⊢
      cases hne : (toAddressList raw).isEmpty with
      | true => rw [handleRewardsCore_missing _ _ _ _ hne] at hchg ⊢
                exact absurd rfl hchg
      | false =>
        cases hall : (toAddressList raw).all isHexAddress with
        | false => rw [handleRewardsCore_invalid _ _ _ _ hne hall] at hchg ⊢
                   exact absurd rfl hchg
        | true =>
          rw [handleRewardsCore_success _ _ _ _ hne hall]
          exact ⟨_, rfl, rfl⟩
    cases hget : cacheGet cache (rewardsKey raw) with
    | some e =>
      obtain ⟨ts, p⟩ := e
      by_cases hf : nowMs - ts < 45000
      · rw [handleRewards_hit _ _ _ _ _ _ hget hf] at hchg
        exact absurd rfl hchg
      · exact hcore (handleRewards_stale _ _ _ _ _ _ hget hf)
    | none => exact hcore (handleRewards_miss _ _ _ _ hget)
  · intro cache nowMs raw sinceRaw feed hbad
    cases hget : cacheGet cache (earnedKey raw sinceRaw) with
    | some e =>
      obtain ⟨ts, p⟩ := e
      by_cases hf : nowMs - ts < 120000
      · rw [handleEarned_hit _ _ _ _ _ _ _ hget hf]
      · rw [handleEarned_stale _ _ _ _ _ _ _ hget hf]
        exact hearnCore _ _ _ _ _ hbad
    | none =>
      rw [handleEarned_miss _ _ _ _ _ hget]
      exact hearnCore _ _ _ _ _ hbad
  · intro cache nowMs raw sinceRaw feed hchg
    have hcore : ∀ (hrun : handleEarned cache nowMs raw sinceRaw feed
          = handleEarnedCore cache nowMs raw sinceRaw feed),
        ∃ payload, (handleEarned cache nowMs raw sinceRaw feed).1
            = .ok payload ∧
          (handleEarned cache nowMs raw sinceRaw feed).2.1
            = cacheSet cache (earnedKey raw sinceRaw) nowMs payload := by
      intro hrun
      rw [hrun] at hchg ⊢
      cases hne : (toAddressList raw).isEmpty with
      | true => rw [handleEarnedCore_missing _ _ _ _ _ hne] at hchg ⊢
                exact absurd rfl hchg
      | false =>
        cases hall : (toAddressList raw).all isHexAddress with
        | false =>
          rw [handleEarnedCore_invalid _ _ _ _ _ hne hall] at hchg ⊢
          exact absurd rfl hchg
        | true =>
          cases hq : parseJsNumberInt sinceRaw with
          | none =>
            rw [handleEarnedCore_since_none _ _ _ _ _ hne hall hq]
              at hchg ⊢
            exact absurd rfl hchg
          | some q =>
            by_cases hqle : q ≤ 0
            · rw [handleEarnedCore_since_nonpos _ _ _ _ _ _ hne hall hq
                hqle] at hchg ⊢
              exact absurd rfl hchg
            · rw [handleEarnedCore_success _ _ _ _ _ _ hne hall hq hqle]
              exact ⟨_, rfl, rfl⟩
    cases hget : cacheGet cache (earnedKey raw sinceRaw) with
    | some e =>
      obtain ⟨ts, p⟩ := e
      by_cases hf : nowMs - ts < 120000
      · rw [handleEarned_hit _ _ _ _ _ _ _ hget hf] at hchg
        exact absurd rfl hchg
      · exact hcore (handleEarned_stale _ _ _ _ _ _ _ hget hf)
    | none => exact hcore (handleEarned_miss _ _ _ _ _ hget)

/-- Witness for C10: an invalid-since request leaves the empty cache
empty, and a successful request's cache change is exactly the stored
fresh payload. -/
theorem errors_never_cached_witness :
    (handleEarned [] 0 wAddr "abc".toList
        (fun _ _ => ⟨[], none, none⟩)).2.1 = []
    ∧ ∃ payload, (handleRewards [] 0 wAddr wNoUp).1 = .ok payload ∧
        (handleRewards [] 0 wAddr wNoUp).2.1
          = cacheSet [] (rewardsKey wAddr) 0 payload :=
  ⟨errors_never_cached.2.2.1 [] 0 wAddr "abc".toList
      (fun _ _ => ⟨[], none, none⟩) (Or.inr (Or.inr (Or.inl (by decide)))),
   errors_never_cached.2.1 [] 0 wAddr wNoUp (by decide)⟩

/-! ## Local Incremental Tracker refresh (C9) -/

theorem trackerStep_write (prev : TrackingState) (k : List Char)
    (ser : List Char → List Char → Option Int) (r : RewardResult)
    (addr : List Char) (b c : Int) (hr : r.address = addr)
    (hb : prev.baselines addr = some b) (hc : r.tfuelBalance = some c) :
    trackerStep prev k ser r addr k = some (jsMax 0 (c - b)) := by
  unfold trackerStep
  rw [hr, hb, hc]
  simp

theorem trackerStep_other (prev : TrackingState) (k : List Char)
    (ser : List Char → List Char → Option Int) (r : RewardResult)
    (addr : List Char) (hr : r.address ≠ addr) (d : List Char) :
    trackerStep prev k ser r addr d = ser addr d := by
  unfold trackerStep
  cases prev.baselines r.address with
  | none => rfl
  | some base =>
    cases r.tfuelBalance with
    | none => rfl
    | some cur =>
      show (if addr = r.address then
          if d = k then some (jsMax 0 (cur - base)) else ser addr d
        else ser addr d) = ser addr d
      rw [if_neg (fun hh => hr hh.symm)]

theorem trackerStep_skip (prev : TrackingState) (k : List Char)
    (ser : List Char → List Char → Option Int) (r : RewardResult)
    (h : prev.baselines r.address = none ∨ r.tfuelBalance = none) :
    trackerStep prev k ser r = ser := by
  unfold trackerStep
  rcases h with h | h
  · rw [h]
  · rw [h]
    cases prev.baselines r.address <;> rfl

theorem trackerFold_addr (prev : TrackingState) (k addr : List Char)
    (v : Int) :
    ∀ (results : List RewardResult)
      (ser : List Char → List Char → Option Int),
      (∀ r ∈ results, r.address = addr →
        ∃ b c, prev.baselines addr = some b ∧ r.tfuelBalance = some c ∧
          jsMax 0 (c - b) = v) →
      (results.foldl (trackerStep prev k) ser) addr k
      = if results.any (fun r => decide (r.address = addr)) then some v
        else ser addr k := by
  intro results
  induction results with
  | nil => intro ser _; simp
  | cons r rest ih =>
    intro ser h
    simp only [List.foldl_cons, List.any_cons]
    rw [ih _ (fun r' hr' ha' => h r' (List.mem_cons_of_mem _ hr') ha')]
    by_cases hr : r.address = addr
    · obtain ⟨b, c, hb, hc, hv⟩ := h r (List.mem_cons_self _ _) hr
      rw [trackerStep_write prev k ser r addr b c hr hb hc, hv]
      simp [hr]
    · rw [trackerStep_other prev k ser r addr hr]
      have hd : decide (r.address = addr) = false :=
        decide_eq_false hr
      simp [hd]

theorem trackerFold_untouched (prev : TrackingState) (k addr : List Char) :
    ∀ (results : List RewardResult)
      (ser : List Char → List Char → Option Int),
      (∀ r ∈ results, r.address = addr →
        prev.baselines addr = none ∨ r.tfuelBalance = none) →
      ∀ d, (results.foldl (trackerStep prev k) ser) addr d = ser addr d := by
  intro results
  induction results with
  | nil => intro ser _ d; rfl
  | cons r rest ih =>
    intro ser h d
    simp only [List.foldl_cons]
    rw [ih _ (fun r' hr' ha' => h r' (List.mem_cons_of_mem _ hr') ha')]
    by_cases hr : r.address = addr
    · rw [trackerStep_skip prev k ser r (by
        rcases h r (List.mem_cons_self _ _) hr with hb | hc
        · exact Or.inl (hr ▸ hb)
        · exact Or.inr hc)]
    · rw [trackerStep_other prev k ser r addr hr]

/-- C9: on a successful balance refresh in the Running state, for a
tracked address whose unique result row carries a current balance and
whose baseline is present, the tracker writes
`series[address][todayKey] = max(0, current - baseline)` — never
negative, as the floor `max 0` shows — while an address whose baseline
or current balance is missing keeps its series unchanged at every day
key. -/
theorem tracker_refresh_floor (prev : TrackingState)
    (todayKey : List Char) (results : List RewardResult)
    (addr : List Char) :
    (∀ (r : RewardResult) (b cur : Int), r ∈ results → r.address = addr →
      (∀ r', r' ∈ results → r'.address = addr → r' = r) →
      prev.baselines addr = some b → r.tfuelBalance = some cur →
      (trackerRefresh todayKey results prev).series addr todayKey
        = some (jsMax 0 (cur - b)))
    ∧ ((prev.baselines addr = none ∨
        ∀ r', r' ∈ results → r'.address = addr → r'.tfuelBalance = none) →
      ∀ d, (trackerRefresh todayKey results prev).series addr d
        = prev.series addr d) := by
  constructor
  · intro r b cur hmem hr huniq hb hc
    unfold trackerRefresh
    simp only []
    rw [trackerFold_addr prev todayKey addr (jsMax 0 (cur - b)) results
      prev.series (fun r' hr' ha' => by
        rw [huniq r' hr' ha']
        exact ⟨b, cur, hb, hc, rfl⟩)]
    rw [if_pos (List.any_eq_true.mpr ⟨r, hmem, by simp [hr]⟩)]
  · intro hmiss d
    unfold trackerRefresh
    simp only []
    rw [trackerFold_untouched prev todayKey addr results prev.series
      (fun r' hr' ha' => by
        rcases hmiss with hb | hc
        · exact Or.inl hb
        · exact Or.inr (hc r' hr' ha'))]

/-- Witness for C9 at the spec's own numbers: baseline 100, refreshed
balance 97 — the written value is `max(0, 97 - 100) = 0`, not a
negative. -/
theorem tracker_refresh_floor_witness :
    (trackerRefresh "2026-01-01".toList wResults wPrev).series wAddr
      "2026-01-01".toList = some (jsMax 0 (97 - 100))
    ∧ jsMax 0 ((97 : Int) - 100) = 0 :=
  ⟨(tracker_refresh_floor wPrev "2026-01-01".toList wResults wAddr).1
      ⟨wAddr, some 97, none, none, none, none⟩ 100 97 (by decide)
      (by decide) (by decide) (by decide) (by decide),
   by decide⟩

end TStaking

